import Mathlib

/-!
# A verification development for the `jt::Json` library (json.cpp)

This file gives a shallow embedding, in Lean 4, of the data model, the
recursive-descent parser, the serializer and the JSONPath engine of
`json.cpp`, and proves (or refutes) a number of properties of that code.

Conventions of the embedding:

* Machine bytes are natural numbers `0..255` (`Byte := Nat`); byte strings
  (`std::string` payloads, parser input) are `List Byte`.
* `long long` arithmetic is `Int` with explicit 64-bit range checks
  (`ckd_mul` / `ckd_add` become range tests on the exact product and sum).
* IEEE-754 doubles are not modelled; a `Double` value carries the source
  token that produced it (the vendored `double-conversion` library that
  converts between decimal text and binary doubles is outside `src/`, so
  the parts of its behaviour the parser depends on are modelled from the
  spec where indicated).
* The C++ functions mutate an output parameter and a cursor; here each
  function returns `(Status, value, remaining-input)`.
* The recursion of the parser and of the JSONPath evaluator is driven by an
  explicit fuel parameter (the C++ recursion has no structural measure
  visible to Lean); fuel exhaustion yields `Status.stack_overflow`, a
  status the C++ enum reserves but the parser itself never produces, and
  every theorem below is either fuel-independent or is proved at the fuel
  the public entry points actually pass.
-/

set_option maxHeartbeats 1000000
set_option maxRecDepth 8000

namespace JsonCpp

/-! ## Bytes -/

abbrev Byte := Nat

def isDigit (c : Byte) : Bool := decide (48 ≤ c ∧ c ≤ 57)

/-! ## Status

The parser statuses, in the order `Json::Status` enumerates them. -/

inductive Status where
  | success
  | bad_double
  | absent_value
  | bad_negative
  | bad_exponent
  | missing_comma
  | missing_colon
  | malformed_utf8
  | depth_exceeded
  | stack_overflow
  | unexpected_eof
  | overlong_ascii
  | unexpected_comma
  | unexpected_colon
  | unexpected_octal
  | trailing_content
  | illegal_character
  | invalid_hex_escape
  | overlong_utf8_0x7ff
  | overlong_utf8_0xffff
  | object_missing_value
  | illegal_utf8_character
  | invalid_unicode_escape
  | utf16_surrogate_in_utf8
  | unexpected_end_of_array
  | hex_escape_not_printable
  | invalid_escape_character
  | utf8_exceeds_utf16_range
  | unexpected_end_of_string
  | unexpected_end_of_object
  | object_key_must_be_string
  | c1_control_code_in_string
  | non_del_c0_control_code_in_string
deriving DecidableEq

/-! ## The value model

`Json` is a tagged union over eight variants.  `Float` and `Double` are
IEEE-754 numbers in the source; both are represented here by the token
(decimal text) that denotes them, since binary floating point is outside
this embedding.  The parser never produces `float`, and stores in `double`
exactly the characters `StringToDouble` consumed. -/

inductive JsonVal where
  | null
  | bool (b : Bool)
  | long (x : Int)
  | float (tok : List Byte)
  | double (tok : List Byte)
  | str (bytes : List Byte)
  | arr (elems : List JsonVal)
  | obj (members : List (List Byte × JsonVal))

/-- Modelled from the spec (§3): the `isObject` predicate of `json.h`
(the header is not under `src/`; the variant tags are those of §3). -/
def JsonVal.isObject : JsonVal → Bool
  | .obj _ => true
  | _ => false

/-- Modelled from the spec (§3): the `isString` predicate of `json.h`. -/
def JsonVal.isString : JsonVal → Bool
  | .str _ => true
  | _ => false

/-- Modelled from the spec (§3): the `isArray` predicate of `json.h`. -/
def JsonVal.isArray : JsonVal → Bool
  | .arr _ => true
  | _ => false

/-- Modelled from the spec (§3): `isNull`. -/
def JsonVal.isNull : JsonVal → Bool
  | .null => true
  | _ => false

/-- Modelled from the spec (§3): `isBool`. -/
def JsonVal.isBool : JsonVal → Bool
  | .bool _ => true
  | _ => false

/-- Modelled from the spec (§3): `isLong`. -/
def JsonVal.isLong : JsonVal → Bool
  | .long _ => true
  | _ => false

/-- Modelled from the spec (§3): `isFloat`. -/
def JsonVal.isFloat : JsonVal → Bool
  | .float _ => true
  | _ => false

/-- Modelled from the spec (§3): `isDouble`. -/
def JsonVal.isDouble : JsonVal → Bool
  | .double _ => true
  | _ => false

/-- Modelled from the spec (§3): `Float` and `Double` and `Long` are all
"number" for type predicates. -/
def JsonVal.isNumber (v : JsonVal) : Bool :=
  v.isLong || v.isFloat || v.isDouble

/-! ### `std::map<std::string, Json>`

Object members are an association list kept in strictly ascending
byte-wise key order, which is how `std::map` with the default
`std::less<std::string>` iterates. -/

/-- `std::string` `operator<`: lexicographic, byte-wise. -/
def keyLt : List Byte → List Byte → Bool
  | [], [] => false
  | [], _ :: _ => true
  | _ :: _, [] => false
  | a :: as, b :: bs =>
    if a < b then true else if b < a then false else keyLt as bs

/-- `std::map::find`. -/
def mapFind : List (List Byte × JsonVal) → List Byte → Option JsonVal
  | [], _ => none
  | (k, v) :: rest, key => if k = key then some v else mapFind rest key

/-- `std::map::emplace`: insert in key order; when the key is already
present the insertion is a no-op (the mapped value is left unchanged). -/
def mapEmplace : List (List Byte × JsonVal) → List Byte → JsonVal →
    List (List Byte × JsonVal)
  | [], k, v => [(k, v)]
  | (k0, v0) :: rest, k, v =>
    if keyLt k k0 then (k, v) :: (k0, v0) :: rest
    else if keyLt k0 k then (k0, v0) :: mapEmplace rest k v
    else (k0, v0) :: rest

/-- The `std::map` representation invariant: keys strictly ascending in
`keyLt`. -/
def sortedKeys : List (List Byte × JsonVal) → Bool
  | [] => true
  | [_] => true
  | (k1, v1) :: (k2, v2) :: rest => keyLt k1 k2 && sortedKeys ((k2, v2) :: rest)

/-- `Json::contains` (json.cpp:604): a non-object never contains a key;
no conversion, insertion or fatal error takes place. -/
def contains (v : JsonVal) (key : List Byte) : Bool :=
  match v with
  | .obj m => (mapFind m key).isSome
  | _ => false

/-! ## The byte-class table `kJsonStr` (json.cpp:95)

256 entries; written out literally, eight per line as in the source. -/

def kJsonStr : List Nat := [
  1,  1,  1,  1,  1,  1,  1,  1,
  1,  1,  1,  1,  1,  1,  1,  1,
  1,  1,  1,  1,  1,  1,  1,  1,
  1,  1,  1,  1,  1,  1,  1,  1,
  0,  0,  2,  0,  0,  0,  0,  0,
  0,  0,  0,  0,  0,  0,  0,  0,
  0,  0,  0,  0,  0,  0,  0,  0,
  0,  0,  0,  0,  0,  0,  0,  0,
  0,  0,  0,  0,  0,  0,  0,  0,
  0,  0,  0,  0,  0,  0,  0,  0,
  0,  0,  0,  0,  0,  0,  0,  0,
  0,  0,  0,  0,  3,  0,  0,  0,
  0,  0,  0,  0,  0,  0,  0,  0,
  0,  0,  0,  0,  0,  0,  0,  0,
  0,  0,  0,  0,  0,  0,  0,  0,
  0,  0,  0,  0,  0,  0,  0,  0,
  7,  7,  7,  7,  7,  7,  7,  7,
  7,  7,  7,  7,  7,  7,  7,  7,
  7,  7,  7,  7,  7,  7,  7,  7,
  7,  7,  7,  7,  7,  7,  7,  7,
  11, 11, 11, 11, 11, 11, 11, 11,
  11, 11, 11, 11, 11, 11, 11, 11,
  11, 11, 11, 11, 11, 11, 11, 11,
  11, 11, 11, 11, 11, 11, 11, 11,
  12, 12, 4,  4,  4,  4,  4,  4,
  4,  4,  4,  4,  4,  4,  4,  4,
  4,  4,  4,  4,  4,  4,  4,  4,
  4,  4,  4,  4,  4,  4,  4,  4,
  8,  5,  5,  5,  5,  5,  5,  5,
  5,  5,  5,  5,  5,  9,  5,  5,
  10, 6,  6,  6,  6,  11, 11, 11,
  11, 11, 11, 11, 11, 11, 11, 11]

/-- `kJsonStr[c & 255]`. -/
def jsonStrClass (c : Byte) : Nat := kJsonStr.getD c 0

/-! ## The escape table `kEscapeLiteral` (json.cpp:130) -/

def kEscapeLiteral : List Nat := [
  9, 9, 9, 9, 9, 9, 9, 9, 9, 1, 2, 9, 4, 3, 9, 9,
  9, 9, 9, 9, 9, 9, 9, 9, 9, 9, 9, 9, 9, 9, 9, 9,
  0, 0, 7, 0, 0, 0, 9, 9, 0, 0, 0, 0, 0, 0, 0, 6,
  0, 0, 0, 0, 0, 0, 0, 0, 0, 0, 0, 0, 9, 9, 9, 0,
  0, 0, 0, 0, 0, 0, 0, 0, 0, 0, 0, 0, 0, 0, 0, 0,
  0, 0, 0, 0, 0, 0, 0, 0, 0, 0, 0, 0, 5, 0, 0, 0,
  0, 0, 0, 0, 0, 0, 0, 0, 0, 0, 0, 0, 0, 0, 0, 0,
  0, 0, 0, 0, 0, 0, 0, 0, 0, 0, 0, 0, 0, 0, 0, 9]

/-- `0 <= x && x <= 127 ? kEscapeLiteral[x] : 9` (json.cpp:767). -/
def escClass (x : Nat) : Nat :=
  if x ≤ 127 then kEscapeLiteral.getD x 0 else 9

/-- `kHexToInt` (json.cpp:141), as a partial map: `some` on the 22 hex
digit bytes, `none` where the table holds `-1`. -/
def hexToInt (c : Byte) : Option Nat :=
  if 48 ≤ c ∧ c ≤ 57 then some (c - 48)
  else if 65 ≤ c ∧ c ≤ 70 then some (c - 55)
  else if 97 ≤ c ∧ c ≤ 102 then some (c - 87)
  else none

/-! ## UTF-16 surrogate predicates (json.cpp:75) -/

def IsSurrogate (wc : Nat) : Bool := wc &&& 0xf800 = 0xd800
def IsHighSurrogate (wc : Nat) : Bool := wc &&& 0xfc00 = 0xd800
def IsLowSurrogate (wc : Nat) : Bool := wc &&& 0xfc00 = 0xdc00
def MergeUtf16 (hi lo : Nat) : Nat := ((hi - 0xd800) <<< 10) + (lo - 0xdc00) + 0x10000

/-- The `EncodeUtf8` block of the parser (json.cpp:1107): re-encode a
decoded codepoint as UTF-8, mapping stray surrogates (and codepoints whose
bits 18.. are all ones) to U+FFFD. -/
def encodeUtf8 (c0 : Nat) : List Byte :=
  if c0 ≤ 0x7f then [c0]
  else if c0 ≤ 0x7ff then
    [0xc0 ||| (c0 >>> 6), 0x80 ||| (c0 &&& 0x3f)]
  else if c0 ≤ 0xffff then
    let c := if IsSurrogate c0 then 0xfffd else c0
    [0xe0 ||| (c >>> 12), 0x80 ||| ((c >>> 6) &&& 0x3f), 0x80 ||| (c &&& 0x3f)]
  else if (c0 >>> 18) &&& 7 ≠ 7 then
    [0xf0 ||| (c0 >>> 18), 0x80 ||| ((c0 >>> 12) &&& 0x3f),
     0x80 ||| ((c0 >>> 6) &&& 0x3f), 0x80 ||| (c0 &&& 0x3f)]
  else
    let c := 0xfffd
    [0xe0 ||| (c >>> 12), 0x80 ||| ((c >>> 6) &&& 0x3f), 0x80 ||| (c &&& 0x3f)]

/-! ## The parser (json.cpp:811)

`Json::parse(Json&, const char*&, const char* e, int context, int depth)`
is a single recursive function; its interior loops (the whitespace loop,
the integer-accumulation loop, the string scanner, and the element loops
of `[` and `{`) become the recursive functions below.  Each returns
`(Status, value, rest)` where `rest` is the cursor after the call; the
value component is meaningful only when the status is `success` (on
failure the C++ output value is unspecified and must not be inspected). -/

def KEY : Nat := 1
def COMMA : Nat := 2
def COLON : Nat := 4
def ARRAY : Nat := 8
def OBJECT : Nat := 16
def DEPTH : Nat := 20

/-- 64-bit `long long` range, for the checked arithmetic `ckd_mul` /
`ckd_add` of the integer loop. -/
def inI64 (x : Int) : Bool := decide (-(2 ^ 63) ≤ x ∧ x ≤ 2 ^ 63 - 1)

/-- Modelled from the spec: the number of characters consumed by the
vendored `double-conversion` `StringToDouble` converter (the library is
outside `src/`).  Per the spec (§4.1 Numbers), the converter consumes the
maximal decimal-number prefix — optional minus sign, integer digits, an
optional fraction part, and an exponent part that is consumed only when at
least one exponent digit is present — and the parser then rejects the
token with `bad_exponent` when the first unconsumed character is an
exponent marker. -/
def digitSpan : List Byte → Nat
  | [] => 0
  | c :: rest => if isDigit c then digitSpan rest + 1 else 0

def numberTokenLen (s : List Byte) : Nat :=
  let (sgn, s1) : Nat × List Byte :=
    match s with
    | 45 :: r => (1, r)
    | _ => (0, s)
  let d1 := digitSpan s1
  let s2 := s1.drop d1
  let (frac, d2) : Nat × Nat :=
    match s2 with
    | 46 :: r => (1, digitSpan r)
    | _ => (0, 0)
  if d1 = 0 ∧ d2 = 0 then 0
  else
    let mant := sgn + d1 + frac + d2
    match s2.drop (frac + d2) with
    | c :: r =>
      if c = 101 ∨ c = 69 then
        let (esgn, r2) : Nat × List Byte :=
          match r with
          | 43 :: rr => (1, rr)
          | 45 :: rr => (1, rr)
          | _ => (0, r)
        let d3 := digitSpan r2
        if d3 = 0 then mant else mant + 1 + esgn + d3
      else mant
    | [] => mant

/-- The `UseDubble` label (json.cpp:952): hand the token starting at `a`
to `StringToDouble`; fail with `bad_double` when nothing was consumed and
with `bad_exponent` when an exponent marker remains unconsumed. -/
def useDubble (a : List Byte) : Status × JsonVal × List Byte :=
  let c := numberTokenLen a
  if c = 0 then (.bad_double, .null, a)
  else
    match a.drop c with
    | k :: rest =>
      if k = 101 ∨ k = 69 then (.bad_exponent, .null, k :: rest)
      else (.success, .double (a.take c), k :: rest)
    | [] => (.success, .double (a.take c), [])

/-- The integer-accumulation loop of cases `'1'..'9'` (json.cpp:931):
checked multiply/add on the 64-bit accumulator, falling through to the
double path on overflow, on `.` (with a digit required after it) and on an
exponent marker. -/
def jparseInt (fuel : Nat) (p a : List Byte) (x d : Int) :
    Status × JsonVal × List Byte :=
  match fuel with
  | 0 => (.stack_overflow, .null, p)
  | fuel + 1 =>
    match p with
    | [] => (.success, .long x, [])
    | c :: rest =>
      if isDigit c then
        if inI64 (x * 10) ∧ inI64 (x * 10 + ((c : Int) - 48) * d) then
          jparseInt fuel rest a (x * 10 + ((c : Int) - 48) * d) d
        else useDubble a
      else if c = 46 then
        match rest with
        | c2 :: _ => if isDigit c2 then useDubble a else (.bad_double, .null, p)
        | [] => (.bad_double, .null, p)
      else if c = 101 ∨ c = 69 then useDubble a
      else (.success, .long x, p)

mutual

/-- The string scanner, case `'"'` (json.cpp:1014): dispatch on the byte
class from `kJsonStr`; `b` is the accumulated payload.  Each multi-byte
class of the switch is its own function below. -/
def jparseStr (fuel : Nat) (p : List Byte) (b : List Byte) :
    Status × JsonVal × List Byte :=
  match fuel with
  | 0 => (.stack_overflow, .null, p)
  | fuel + 1 =>
    match p with
    | [] => (.unexpected_end_of_string, .null, [])
    | c :: rest =>
      if jsonStrClass c = 0 then jparseStr fuel rest (b ++ [c]) -- ASCII
      else if jsonStrClass c = 2 then (.success, .str b, rest) -- DQUOTE
      else if jsonStrClass c = 3 then jparseEsc fuel rest b -- BACKSLASH
      else if jsonStrClass c = 4 then jparseStrU2 fuel c rest b -- UTF8_2
      else if jsonStrClass c = 8 then jparseStrE0 fuel c rest b -- UTF8_3_E0
      else if jsonStrClass c = 5 then jparseStr3 fuel c rest b -- UTF8_3
      else if jsonStrClass c = 9 then jparseStrED fuel c rest b -- UTF8_3_ED
      else if jsonStrClass c = 10 then jparseStrF0 fuel c rest b -- UTF8_4_F0
      else if jsonStrClass c = 6 then jparseStr4 fuel c rest b -- UTF8_4
      else if jsonStrClass c = 12 then -- EVILUTF8 (0xC0/0xC1)
        match rest with
        | r0 :: _ =>
          if r0 &&& 0xc0 = 0x80 then (.overlong_ascii, .null, rest)
          else (.illegal_utf8_character, .null, rest)
        | [] => (.illegal_utf8_character, .null, rest)
      else if jsonStrClass c = 11 then (.illegal_utf8_character, .null, rest) -- BADUTF8
      else if jsonStrClass c = 1 then (.non_del_c0_control_code_in_string, .null, rest) -- C0
      else if jsonStrClass c = 7 then (.c1_control_code_in_string, .null, rest) -- C1
      else (.illegal_character, .null, rest) -- unreachable
termination_by structural fuel

/-- Class `UTF8_2` (json.cpp:1147): one continuation byte required. -/
def jparseStrU2 (fuel : Nat) (c : Byte) (rest b : List Byte) :
    Status × JsonVal × List Byte :=
  match fuel with
  | 0 => (.stack_overflow, .null, rest)
  | fuel + 1 =>
    match rest with
    | r0 :: rest1 =>
      if r0 &&& 0xc0 = 0x80 then
        jparseStr fuel rest1
          (b ++ encodeUtf8 (((c &&& 0x1f) <<< 6) ||| (r0 &&& 0x3f)))
      else (.malformed_utf8, .null, rest)
    | [] => (.malformed_utf8, .null, rest)
termination_by structural fuel

/-- Class `UTF8_3_E0` (json.cpp:1158): reject overlong encodings below
U+0800, otherwise continue as a plain three-byte sequence. -/
def jparseStrE0 (fuel : Nat) (c : Byte) (rest b : List Byte) :
    Status × JsonVal × List Byte :=
  match fuel with
  | 0 => (.stack_overflow, .null, rest)
  | fuel + 1 =>
    match rest with
    | r0 :: r1 :: _ =>
      if r0 < 0xa0 ∧ r0 &&& 0xc0 = 0x80 ∧ r1 &&& 0xc0 = 0x80 then
        (.overlong_utf8_0x7ff, .null, rest)
      else jparseStr3 fuel c rest b
    | _ => jparseStr3 fuel c rest b
termination_by structural fuel

/-- The `ThreeUtf8` label (json.cpp:1167): a three-byte sequence needs
two continuation bytes. -/
def jparseStr3 (fuel : Nat) (c : Byte) (rest b : List Byte) :
    Status × JsonVal × List Byte :=
  match fuel with
  | 0 => (.stack_overflow, .null, rest)
  | fuel + 1 =>
    match rest with
    | r0 :: r1 :: rest2 =>
      if r0 &&& 0xc0 = 0x80 ∧ r1 &&& 0xc0 = 0x80 then
        jparseStr fuel rest2
          (b ++ encodeUtf8 (((c &&& 0x0f) <<< 12) ||| ((r0 &&& 0x3f) <<< 6) |||
            (r1 &&& 0x3f)))
      else (.malformed_utf8, .null, rest)
    | _ => (.malformed_utf8, .null, rest)
termination_by structural fuel

/-- Class `UTF8_3_ED` (json.cpp:1181): a CESU-8 surrogate pair is decoded
and re-emitted as four-byte UTF-8 (without advancing the cursor past the
pair, as in the source), an isolated surrogate-range sequence is
`utf16_surrogate_in_utf8`, and a low first continuation byte continues as
a plain three-byte sequence. -/
def jparseStrED (fuel : Nat) (c : Byte) (rest b : List Byte) :
    Status × JsonVal × List Byte :=
  match fuel with
  | 0 => (.stack_overflow, .null, rest)
  | fuel + 1 =>
    match rest with
    | r0 :: r1 :: rest2 =>
      if 0xa0 ≤ r0 then
        match rest2 with
        | r2 :: r3 :: r4 :: _ =>
          if 0xae ≤ r0 ∧ r1 &&& 0xc0 = 0x80 ∧ r2 = 0xed ∧ 0xb0 ≤ r3 ∧
              r4 &&& 0xc0 = 0x80 then
            jparseStr fuel rest
              (b ++ encodeUtf8
                ((((0xd000 ||| ((r0 &&& 0x3f) <<< 6) ||| (r1 &&& 0x3f)) - 0xdb80) <<< 10) +
                  ((0xd000 ||| ((r3 &&& 0x3f) <<< 6) ||| (r4 &&& 0x3f)) - 0xdc00) + 0x10000))
          else if r0 &&& 0xc0 = 0x80 ∧ r1 &&& 0xc0 = 0x80 then
            (.utf16_surrogate_in_utf8, .null, rest)
          else (.malformed_utf8, .null, rest)
        | _ =>
          if r0 &&& 0xc0 = 0x80 ∧ r1 &&& 0xc0 = 0x80 then
            (.utf16_surrogate_in_utf8, .null, rest)
          else (.malformed_utf8, .null, rest)
      else jparseStr3 fuel c rest b
    | _ => jparseStr3 fuel c rest b
termination_by structural fuel

/-- Class `UTF8_4_F0` (json.cpp:1208): reject overlong encodings below
U+10000, otherwise continue as a plain four-byte sequence. -/
def jparseStrF0 (fuel : Nat) (c : Byte) (rest b : List Byte) :
    Status × JsonVal × List Byte :=
  match fuel with
  | 0 => (.stack_overflow, .null, rest)
  | fuel + 1 =>
    match rest with
    | r0 :: r1 :: r2 :: _ =>
      if r0 < 0x90 ∧ r0 &&& 0xc0 = 0x80 ∧ r1 &&& 0xc0 = 0x80 ∧
          r2 &&& 0xc0 = 0x80 then
        (.overlong_utf8_0xffff, .null, rest)
      else jparseStr4 fuel c rest b
    | _ => jparseStr4 fuel c rest b
termination_by structural fuel

/-- Case `UTF8_4` (json.cpp:1218): three continuation bytes and a
codepoint of at most U+10FFFF. -/
def jparseStr4 (fuel : Nat) (c : Byte) (rest b : List Byte) :
    Status × JsonVal × List Byte :=
  match fuel with
  | 0 => (.stack_overflow, .null, rest)
  | fuel + 1 =>
    match rest with
    | r0 :: r1 :: r2 :: rest3 =>
      if r0 &&& 0xc0 = 0x80 ∧ r1 &&& 0xc0 = 0x80 ∧ r2 &&& 0xc0 = 0x80 then
        if ((c &&& 7) <<< 18) ||| ((r0 &&& 0x3f) <<< 12) |||
            ((r1 &&& 0x3f) <<< 6) ||| (r2 &&& 0x3f) ≤ 0x10ffff then
          jparseStr fuel rest3
            (b ++ encodeUtf8 (((c &&& 7) <<< 18) ||| ((r0 &&& 0x3f) <<< 12) |||
              ((r1 &&& 0x3f) <<< 6) ||| (r2 &&& 0x3f)))
        else (.utf8_exceeds_utf16_range, .null, rest)
      else (.malformed_utf8, .null, rest)
    | _ => (.malformed_utf8, .null, rest)
termination_by structural fuel

/-- The `BACKSLASH` class (json.cpp:1032): decode one escape sequence;
`\x` and `\u` are the functions below. -/
def jparseEsc (fuel : Nat) (p : List Byte) (b : List Byte) :
    Status × JsonVal × List Byte :=
  match fuel with
  | 0 => (.stack_overflow, .null, p)
  | fuel + 1 =>
    match p with
    | [] => (.unexpected_end_of_string, .null, [])
    | e :: rest =>
      if e = 34 ∨ e = 47 ∨ e = 92 then jparseStr fuel rest (b ++ [e])
      else if e = 98 then jparseStr fuel rest (b ++ [8])
      else if e = 102 then jparseStr fuel rest (b ++ [12])
      else if e = 110 then jparseStr fuel rest (b ++ [10])
      else if e = 114 then jparseStr fuel rest (b ++ [13])
      else if e = 116 then jparseStr fuel rest (b ++ [9])
      else if e = 120 then jparseEscX fuel rest b
      else if e = 117 then jparseEscU fuel rest b
      else (.invalid_escape_character, .null, rest)
termination_by structural fuel

/-- The `\xHH` escape (json.cpp:1056): two hex digits yielding printable
ASCII only. -/
def jparseEscX (fuel : Nat) (rest b : List Byte) :
    Status × JsonVal × List Byte :=
  match fuel with
  | 0 => (.stack_overflow, .null, rest)
  | fuel + 1 =>
    match rest with
    | h0 :: h1 :: rest2 =>
      (match hexToInt h0, hexToInt h1 with
       | some A, some B =>
         if 0x20 ≤ (A <<< 4) ||| B ∧ (A <<< 4) ||| B ≤ 0x7e then
           jparseStr fuel rest2 (b ++ [(A <<< 4) ||| B])
         else (.hex_escape_not_printable, .null, rest2)
       | _, _ => (.invalid_hex_escape, .null, rest))
    | _ => (.invalid_hex_escape, .null, rest)
termination_by structural fuel

/-- The `\uHHHH` escape (json.cpp:1070): decode UTF-16; a high surrogate
must be followed immediately by `\u` and a low surrogate, and on any
malformed surrogate the literal text `\u` is echoed and scanning resumes
at the first hex digit (the cursor was never advanced). -/
def jparseEscU (fuel : Nat) (rest b : List Byte) :
    Status × JsonVal × List Byte :=
  match fuel with
  | 0 => (.stack_overflow, .null, rest)
  | fuel + 1 =>
    match rest with
    | h0 :: h1 :: h2 :: h3 :: rest4 =>
      (match hexToInt h0, hexToInt h1, hexToInt h2, hexToInt h3 with
       | some A, some B, some C, some D =>
         if ¬ IsSurrogate ((A <<< 12) ||| (B <<< 8) ||| (C <<< 4) ||| D) then
           jparseStr fuel rest4
             (b ++ encodeUtf8 ((A <<< 12) ||| (B <<< 8) ||| (C <<< 4) ||| D))
         else if IsHighSurrogate ((A <<< 12) ||| (B <<< 8) ||| (C <<< 4) ||| D) then
           match rest4 with
           | 92 :: 117 :: g0 :: g1 :: g2 :: g3 :: rest10 =>
             (match hexToInt g0, hexToInt g1, hexToInt g2, hexToInt g3 with
              | some A2, some B2, some C2, some D2 =>
                if IsLowSurrogate ((A2 <<< 12) ||| (B2 <<< 8) ||| (C2 <<< 4) ||| D2) then
                  jparseStr fuel rest10
                    (b ++ encodeUtf8 (MergeUtf16
                      ((A <<< 12) ||| (B <<< 8) ||| (C <<< 4) ||| D)
                      ((A2 <<< 12) ||| (B2 <<< 8) ||| (C2 <<< 4) ||| D2)))
                else jparseStr fuel (h0 :: h1 :: h2 :: h3 :: rest4) (b ++ [92, 117])
              | _, _, _, _ =>
                jparseStr fuel (h0 :: h1 :: h2 :: h3 :: rest4) (b ++ [92, 117]))
           | _ => jparseStr fuel (h0 :: h1 :: h2 :: h3 :: rest4) (b ++ [92, 117])
         else
           jparseStr fuel (h0 :: h1 :: h2 :: h3 :: rest4) (b ++ [92, 117])
       | _, _, _, _ => (.invalid_unicode_escape, .null, rest))
    | _ => (.invalid_unicode_escape, .null, rest)
termination_by structural fuel

end

/-- The `OnColonCommaKey` / `OnColonComma` labels (json.cpp:884). -/
def onColonCommaKey (ctx : Nat) (p : List Byte) : Status × JsonVal × List Byte :=
  if ctx &&& KEY ≠ 0 then (.object_key_must_be_string, .null, p)
  else if ctx &&& COLON ≠ 0 then (.missing_colon, .null, p)
  else (.missing_comma, .null, p)

/-- `OnColonComma` alone (reached from the `'"'` case). -/
def onColonComma (ctx : Nat) (p : List Byte) : Status × JsonVal × List Byte :=
  if ctx &&& COLON ≠ 0 then (.missing_colon, .null, p)
  else (.missing_comma, .null, p)

mutual

/-- `Json::parse(Json&, const char*&, const char*, int, int)`
(json.cpp:811).  `p` is the cursor, `a` the token start (reset after
whitespace and separators), `d` the pending sign, `ctx` the context bit
mask and `depth` the remaining-depth counter. -/
def jparse (fuel : Nat) (p a : List Byte) (d : Int) (ctx : Nat) (depth : Nat) :
    Status × JsonVal × List Byte :=
  match fuel with
  | 0 => (.stack_overflow, .null, p)
  | fuel + 1 =>
    if depth = 0 then (.depth_exceeded, .null, p)
    else
      match p with
      | [] => (if depth = DEPTH then Status.absent_value else .unexpected_eof, .null, [])
      | c :: rest =>
        if c = 32 ∨ c = 10 ∨ c = 13 ∨ c = 9 then -- whitespace
          jparse fuel rest rest d ctx depth
        else if c = 44 then -- comma
          if ctx &&& COMMA ≠ 0 then jparse fuel rest rest d 0 depth
          else (.unexpected_comma, .null, rest)
        else if c = 58 then -- colon
          if ctx &&& COLON ≠ 0 then jparse fuel rest rest d 0 depth
          else (.unexpected_colon, .null, rest)
        else if c = 110 then -- null
          if ctx &&& (KEY ||| COLON ||| COMMA) ≠ 0 then onColonCommaKey ctx rest
          else
            match rest with
            | 117 :: 108 :: 108 :: rest2 => (.success, .null, rest2)
            | _ => (.illegal_character, .null, rest)
        else if c = 102 then -- false
          if ctx &&& (KEY ||| COLON ||| COMMA) ≠ 0 then onColonCommaKey ctx rest
          else
            match rest with
            | 97 :: 108 :: 115 :: 101 :: rest2 => (.success, .bool false, rest2)
            | _ => (.illegal_character, .null, rest)
        else if c = 116 then -- true
          if ctx &&& (KEY ||| COLON ||| COMMA) ≠ 0 then onColonCommaKey ctx rest
          else
            match rest with
            | 114 :: 117 :: 101 :: rest2 => (.success, .bool true, rest2)
            | _ => (.illegal_character, .null, rest)
        else if c = 45 then -- negative
          if ctx &&& (COLON ||| COMMA ||| KEY) ≠ 0 then onColonCommaKey ctx rest
          else
            match rest with
            | c2 :: _ =>
              if isDigit c2 then jparse fuel rest a (-1) ctx depth
              else (.bad_negative, .null, rest)
            | [] => (.bad_negative, .null, rest)
        else if c = 48 then -- zero or double
          if ctx &&& (COLON ||| COMMA ||| KEY) ≠ 0 then onColonCommaKey ctx rest
          else
            match rest with
            | [] => (.success, .long 0, [])
            | c2 :: rest2 =>
              if c2 = 46 then
                match rest2 with
                | c3 :: _ =>
                  if isDigit c3 then useDubble a else (.bad_double, .null, rest)
                | [] => (.bad_double, .null, rest)
              else if c2 = 101 ∨ c2 = 69 then useDubble a
              else if isDigit c2 then (.unexpected_octal, .null, rest)
              else (.success, .long 0, rest)
        else if isDigit c then -- integer
          if ctx &&& (COLON ||| COMMA ||| KEY) ≠ 0 then onColonCommaKey ctx rest
          else jparseInt fuel rest a (((c : Int) - 48) * d) d
        else if c = 91 then -- [ Array
          if ctx &&& (COLON ||| COMMA ||| KEY) ≠ 0 then onColonCommaKey ctx rest
          else jparseArr fuel rest [] ARRAY depth
        else if c = 93 then -- ]
          if ctx &&& ARRAY ≠ 0 then (.absent_value, .null, rest)
          else (.unexpected_end_of_array, .null, rest)
        else if c = 125 then -- }
          if ctx &&& OBJECT ≠ 0 then (.absent_value, .null, rest)
          else (.unexpected_end_of_object, .null, rest)
        else if c = 123 then -- { Object
          if ctx &&& (COLON ||| COMMA ||| KEY) ≠ 0 then onColonCommaKey ctx rest
          else jparseObj fuel rest [] (KEY ||| OBJECT) depth
        else if c = 34 then -- string
          if ctx &&& (COLON ||| COMMA) ≠ 0 then onColonComma ctx rest
          else jparseStr fuel rest []
        else (.illegal_character, .null, rest)
termination_by structural fuel

/-- The element loop of case `'['` (json.cpp:962): parse elements at
`depth - 1` until a child reports `absent_value` (its closing `]`). -/
def jparseArr (fuel : Nat) (p : List Byte) (acc : List JsonVal) (ctx : Nat)
    (depth : Nat) : Status × JsonVal × List Byte :=
  match fuel with
  | 0 => (.stack_overflow, .null, p)
  | fuel + 1 =>
    match jparse fuel p p 1 ctx (depth - 1) with
    | (.absent_value, _, rest) => (.success, .arr acc, rest)
    | (.success, v, rest) => jparseArr fuel rest (acc ++ [v]) (ARRAY ||| COMMA) depth
    | (st, _, rest) => (st, .arr acc, rest)
termination_by structural fuel

/-- The member loop of case `'{'` (json.cpp:988): parse a key (which must
be a string), then its value under a `COLON` context, and `emplace` the
pair — so a repeated key keeps its first value. -/
def jparseObj (fuel : Nat) (p : List Byte) (acc : List (List Byte × JsonVal))
    (ctx : Nat) (depth : Nat) : Status × JsonVal × List Byte :=
  match fuel with
  | 0 => (.stack_overflow, .null, p)
  | fuel + 1 =>
    match jparse fuel p p 1 ctx (depth - 1) with
    | (.absent_value, _, rest) => (.success, .obj acc, rest)
    | (.success, k, rest) =>
      match k with
      | .str kb =>
        (match jparse fuel rest rest 1 COLON (depth - 1) with
         | (.absent_value, _, rest2) => (.object_missing_value, .obj acc, rest2)
         | (.success, v, rest2) =>
           jparseObj fuel rest2 (mapEmplace acc kb v) (KEY ||| COMMA ||| OBJECT) depth
         | (st, _, rest2) => (st, .obj acc, rest2))
      | _ => (.object_key_must_be_string, .obj acc, rest)
    | (st, _, rest) => (st, .obj acc, rest)
termination_by structural fuel

end

/-- Ample fuel for one top-level parse of `s`: the parser consumes at
least one input byte every few recursive calls. -/
def bigFuel (s : List Byte) : Nat := 4 * s.length + 64

/-- `Json::parse(const std::string&)` (json.cpp:1264): parse a top-level
value; on success parse again, and report `trailing_content` unless the
second parse reports `absent_value`. -/
def parseBytes (s : List Byte) : Status × JsonVal :=
  match jparse (bigFuel s) s s 1 0 DEPTH with
  | (.success, v, rest) =>
    match jparse (bigFuel rest) rest rest 1 0 DEPTH with
    | (st2, _, _) =>
      if st2 ≠ Status.absent_value then (.trailing_content, v) else (.success, v)
  | (st, v, _) => (st, v)

/-! ## The serializer (json.cpp:631)

`toString` / `toStringPretty` append to a byte buffer `b` through
`marshal`; string payloads go through `serialize`, which decodes UTF-8
with the ThomPike macros and escapes through `kEscapeLiteral`. -/

/-- `UlongToString` (json.cpp:223): decimal digits, least significant
first, then reversed in place. -/
def ulongDigitsRev (x : Nat) : List Byte :=
  if h : x / 10 = 0 then [x % 10 + 48]
  else (x % 10 + 48) :: ulongDigitsRev (x / 10)
termination_by x
decreasing_by
  exact Nat.div_lt_self (Nat.pos_of_ne_zero fun hx => h (by simp [hx])) (by omega)

def ulongToString (x : Nat) : List Byte := (ulongDigitsRev x).reverse

/-- `LongToString` (json.cpp:244). -/
def longToString (x : Int) : List Byte :=
  if x < 0 then 45 :: ulongToString x.natAbs else ulongToString x.toNat

/-- Modelled from the spec (§4.2): the shortest-round-trip formatter of
the vendored double-conversion library (outside `src/`).  Doubles are
abstract tokens in this embedding, so the formatter is the identity on
the token; no theorem below depends on its output. -/
def doubleShortest (tok : List Byte) : List Byte := tok

/-! ### The ThomPike UTF-8 decoding macros (json.cpp:69) -/

def Bsr (x : Nat) : Nat := Nat.log2 x

def ThomPikeMsb (x : Nat) : Nat := if x % 256 < 252 then Bsr (255 - x % 256) else 1

def ThomPikeByte (x : Nat) : Nat := x &&& (((1 <<< ThomPikeMsb x) - 1) ||| 3)

def ThomPikeLen (x : Nat) : Nat := 7 - ThomPikeMsb x

def ThomPikeCont (x : Nat) : Bool := x &&& 0xc0 = 0x80

def ThomPikeMerge (x y : Nat) : Nat := (x <<< 6) ||| (y &&& 0x3f)

/-- `EncodeUtf16` (json.cpp:79): pack a codepoint as one UTF-16 unit or a
surrogate pair (low half first in the packed word). -/
def EncodeUtf16 (wc : Nat) : Nat :=
  if wc ≤ 0xffff then wc
  else if wc ≤ 0x10ffff then
    (((wc - 0x10000) >>> 10) + 0xd800) |||
      ((((wc - 0x10000) &&& 1023) + 0xdc00) <<< 16)
  else 0xfffd

def hexDigitLower (n : Nat) : Byte :=
  [48, 49, 50, 51, 52, 53, 54, 55, 56, 57, 97, 98, 99, 100, 101, 102].getD n 48

/-- The `do { … } while ((w >>= 16))` loop of `serialize` (json.cpp:794):
emit `\uXXXX` for each 16-bit unit of `w`, lowercase hex. -/
def emitUtf16 (w : Nat) (sb : List Byte) : List Byte :=
  let esc := [92, 117, hexDigitLower ((w &&& 0xf000) >>> 12),
    hexDigitLower ((w &&& 0x0f00) >>> 8), hexDigitLower ((w &&& 0x00f0) >>> 4),
    hexDigitLower (w &&& 0x000f)]
  if w >>> 16 = 0 then sb ++ esc else emitUtf16 (w >>> 16) (sb ++ esc)
termination_by w
decreasing_by
  rename_i h
  rw [Nat.shiftRight_eq_div_pow] at h ⊢
  refine Nat.div_lt_self ?_ (by norm_num)
  by_contra h0
  exact h (Nat.div_eq_of_lt (by omega))

/-- The continuation-merging inner loop of `serialize` (json.cpp:754):
merge exactly the expected continuation bytes, or commit nothing. -/
def tryMergeCont (a : Nat) (bytes : List Byte) : Option Nat :=
  match bytes with
  | [] => some a
  | y :: rest => if ThomPikeCont y then tryMergeCont (ThomPikeMerge a y) rest else none

/-- The cursor advance of one iteration of `Json::serialize`
(json.cpp:748): for a lead byte `x ≥ 0xC0` with all of its expected
continuation bytes present, yield the decoded codepoint and the input
past the sequence; otherwise keep the raw byte and advance by one. -/
def serializeStep (x : Nat) (rest : List Byte) : Nat × List Byte :=
  if 0xc0 ≤ x then
    let m := ThomPikeLen x - 1
    if m ≤ rest.length then
      match tryMergeCont (ThomPikeByte x) (rest.take m) with
      | some a => (a, rest.drop m)
      | none => (x, rest)
    else (x, rest)
  else (x, rest)

/-- `Json::serialize` (json.cpp:742): walk the payload bytes, decoding
multi-byte UTF-8 to a codepoint where complete, and dispatch on
`kEscapeLiteral`.  Every iteration consumes at least one input byte, so
the fuel `stringify` passes (`s.length + 1`) never runs out. -/
def jserialize (fuel : Nat) (s sb : List Byte) : List Byte :=
  match fuel with
  | 0 => sb
  | fuel + 1 =>
    match s with
    | [] => sb
    | x :: rest =>
      let st := serializeStep x rest
      let sb2 : List Byte :=
        match escClass st.1 with
        | 0 => sb ++ [st.1]
        | 1 => sb ++ [92, 116]
        | 2 => sb ++ [92, 110]
        | 3 => sb ++ [92, 114]
        | 4 => sb ++ [92, 102]
        | 5 => sb ++ [92, 92]
        | 6 => sb ++ [92, 47]
        | 7 => sb ++ [92, 34]
        | _ => emitUtf16 (EncodeUtf16 st.1) sb
      jserialize fuel st.2 sb2
termination_by structural fuel

/-- `Json::stringify` (json.cpp:734). -/
def stringify (b s : List Byte) : List Byte :=
  jserialize (s.length + 1) s (b ++ [34]) ++ [34]

def indentSpaces (n : Nat) : List Byte := List.replicate (2 * n) 32

mutual

/-- `Json::marshal` (json.cpp:647). -/
def marshal (v : JsonVal) (b : List Byte) (pretty : Bool) (indent : Nat) :
    List Byte :=
  match v with
  | .null => b ++ [110, 117, 108, 108]
  | .str s => stringify b s
  | .bool bv => b ++ (if bv then [116, 114, 117, 101] else [102, 97, 108, 115, 101])
  | .long x => b ++ longToString x
  | .float tok => b ++ doubleShortest tok
  | .double tok => b ++ doubleShortest tok
  | .arr l => marshalArr l (b ++ [91]) pretty indent false ++ [93]
  | .obj m =>
    let b1 := marshalObj m (b ++ [123]) pretty indent false m.length
    (if pretty ∧ m.length > 1 then b1 ++ [10] ++ indentSpaces indent else b1) ++ [125]
termination_by structural v

/-- The array loop of `marshal`: elements separated by `,` (plus a space
when pretty). -/
def marshalArr (l : List JsonVal) (b : List Byte) (pretty : Bool)
    (indent : Nat) (once : Bool) : List Byte :=
  match l with
  | [] => b
  | v :: rest =>
    let b1 := if once then (if pretty then b ++ [44, 32] else b ++ [44]) else b
    marshalArr rest (marshal v b1 pretty indent) pretty indent true
termination_by structural l

/-- The object loop of `marshal`: members separated by `,`; when pretty
and the object has at least two members, each member sits on its own line
one indent level deeper. -/
def marshalObj (m : List (List Byte × JsonVal)) (b : List Byte)
    (pretty : Bool) (indent : Nat) (once : Bool) (sz : Nat) : List Byte :=
  match m with
  | [] => b
  | (k, v) :: rest =>
    let b1 := if once then b ++ [44] else b
    let multi := pretty ∧ sz > 1
    let b2 := if multi then b1 ++ [10] ++ indentSpaces (indent + 1) else b1
    let childIndent := if multi then indent + 1 else indent
    let b3 := stringify b2 k ++ [58]
    let b4 := if pretty then b3 ++ [32] else b3
    marshalObj rest (marshal v b4 pretty childIndent) pretty indent true sz
termination_by structural m

end

/-- `Json::toString` (json.cpp:631). -/
def toStringBytes (v : JsonVal) : List Byte := marshal v [] false 0

/-- `Json::toStringPretty` (json.cpp:639). -/
def toStringPrettyBytes (v : JsonVal) : List Byte := marshal v [] true 0

/-! ## The JSONPath compiled representation (json.cpp:1283)

The C++ evaluators walk a tree of `Json` nodes through pointers; the
embedding identifies a node by its access path (`Loc`) from the start
node, which is the pointer-level identity in a tree. -/

/-- `detail::JsonPathSlice` (json.cpp:1283).  The `end` field is renamed
`stop` (`end` is a Lean keyword). -/
structure JsonPathSlice where
  hasStart : Bool := false
  start : Int := 0
  hasEnd : Bool := false
  stop : Int := 0
  hasStep : Bool := false
  step : Int := 1
deriving DecidableEq

/-- `detail::JsonPathUnionKind` (json.cpp:1293). -/
inductive JsonPathUnionKind where
  | Name
  | Index
  | Slice
  | Wildcard
deriving DecidableEq

/-- `detail::JsonPathUnionEntry` (json.cpp:1301). -/
structure JsonPathUnionEntry where
  kind : JsonPathUnionKind := .Wildcard
  name : List Byte := []
  index : Int := 0
  slice : JsonPathSlice := {}
deriving DecidableEq

/-- `JsonPathStep::Kind` (json.cpp:1313). -/
inductive JsonPathStepKind where
  | Name
  | Wildcard
  | Indices
  | Slice
  | Union
  | Filter
deriving DecidableEq

/-- `FilterNode::Kind` (json.cpp:1368). -/
inductive FilterNodeKind where
  | Or
  | And
  | Not
  | Comparison
  | Exists
deriving DecidableEq

/-- `FilterOperand::Type` (json.cpp:1340). -/
inductive FilterOperandType where
  | Literal
  | Path
  | Function
deriving DecidableEq

/-- `FilterOperand::FunctionCall::Name` (json.cpp:1349). -/
inductive FuncName where
  | Length
  | Size
  | Count
deriving DecidableEq

mutual

/-- `detail::JsonPathStep` (json.cpp:1311): `(kind, recursive)` plus the
payload of each kind; `filter` models the `shared_ptr<FilterNode>`. -/
inductive JsonPathStep where
  | mk (kind : JsonPathStepKind) (recursive : Bool) (name : List Byte)
      (indices : List Int) (slice : JsonPathSlice)
      (unionEntries : List JsonPathUnionEntry) (filter : Option FilterNode)

/-- `detail::CompiledPath` (json.cpp:1332). -/
inductive CompiledPath where
  | mk (relative : Bool) (steps : List JsonPathStep)

/-- `detail::FilterNode` (json.cpp:1366). -/
inductive FilterNode where
  | mk (kind : FilterNodeKind) (comparisonOp : String)
      (lhs rhs existsOperand : FilterOperand)
      (left right : Option FilterNode)

/-- `detail::FilterOperand` (json.cpp:1338). -/
inductive FilterOperand where
  | mk (type : FilterOperandType) (literal : JsonVal) (path : CompiledPath)
      (function : Option FunctionCall)

/-- `FilterOperand::FunctionCall` (json.cpp:1347). -/
inductive FunctionCall where
  | mk (name : FuncName) (args : List FilterOperand)

end

def JsonPathStep.kind : JsonPathStep → JsonPathStepKind
  | .mk k _ _ _ _ _ _ => k

def JsonPathStep.recursive : JsonPathStep → Bool
  | .mk _ r _ _ _ _ _ => r

def JsonPathStep.name : JsonPathStep → List Byte
  | .mk _ _ n _ _ _ _ => n

def JsonPathStep.indices : JsonPathStep → List Int
  | .mk _ _ _ i _ _ _ => i

def JsonPathStep.slice : JsonPathStep → JsonPathSlice
  | .mk _ _ _ _ s _ _ => s

def JsonPathStep.unionEntries : JsonPathStep → List JsonPathUnionEntry
  | .mk _ _ _ _ _ u _ => u

def JsonPathStep.filter : JsonPathStep → Option FilterNode
  | .mk _ _ _ _ _ _ f => f

def CompiledPath.relative : CompiledPath → Bool
  | .mk r _ => r

def CompiledPath.steps : CompiledPath → List JsonPathStep
  | .mk _ s => s

/-- A default-constructed `FilterOperand` (a null literal), used where
the C++ leaves a member default-initialized. -/
def nullOperand : FilterOperand := .mk .Literal .null (.mk false []) none

/-! ## Node identity

A node of the document tree is identified by the path of array indices
and object keys from the start node; this is the shallow-embedding
counterpart of the `Json*` node pointers of the evaluators. -/

inductive Seg where
  | idx (i : Nat)
  | key (k : List Byte)
deriving DecidableEq

abbrev Loc := List Seg

/-- Follow a location from a value: the dereference of a node pointer. -/
def getAt : JsonVal → Loc → Option JsonVal
  | v, [] => some v
  | .arr l, .idx i :: r =>
    (match l.get? i with
     | some c => getAt c r
     | none => none)
  | .obj m, .key k :: r =>
    (match mapFind m k with
     | some c => getAt c r
     | none => none)
  | _, _ :: _ => none

def nodeAt (v : JsonVal) (loc : Loc) : JsonVal := (getAt v loc).getD .null

/-! ## Evaluator helpers -/

/-- `detail::normalizeIndex` (json.cpp:2409). -/
def normalizeIndex (index : Int) (size : Nat) : Option Nat :=
  let normalized := if index < 0 then index + size else index
  if 0 ≤ normalized ∧ normalized < (size : Int) then some normalized.toNat
  else none

/-- `for (i = start; i < stop; i += stp)`, `stp > 0`. -/
def forUpAux : Nat → Int → Int → Int → List Int
  | 0, _, _, _ => []
  | n + 1, i, stop, stp => if i < stop then i :: forUpAux n (i + stp) stop stp else []

def forUp (i stop stp : Int) : List Int := forUpAux ((stop - i).toNat + 1) i stop stp

/-- `for (i = start; i > stop; i += stp)`, `stp < 0`. -/
def forDownAux : Nat → Int → Int → Int → List Int
  | 0, _, _, _ => []
  | n + 1, i, stop, stp => if i > stop then i :: forDownAux n (i + stp) stop stp else []

def forDown (i stop stp : Int) : List Int := forDownAux ((i - stop).toNat + 1) i stop stp

/-- The index arithmetic of `detail::applySlice` (json.cpp:2455), which
the parent-tracking evaluator repeats verbatim in its `Slice` case
(json.cpp:3333): defaults, negative-index normalization, clamping, and
the two iteration directions.  A zero step throws a runtime error in the
source — identically in both evaluators — which is modelled as an empty
match list. -/
def sliceIndices (slice : JsonPathSlice) (size : Nat) : List Int :=
  if size = 0 then []
  else
    let stp := if slice.hasStep then slice.step else 1
    if stp = 0 then []
    else if 0 < stp then
      let start0 := if slice.hasStart then slice.start else 0
      let end0 := if slice.hasEnd then slice.stop else (size : Int)
      let start1 := if start0 < 0 then start0 + size else start0
      let end1 := if end0 < 0 then end0 + size else end0
      forUp (max 0 (min start1 (size : Int))) (max 0 (min end1 (size : Int))) stp
    else
      let start0 := if slice.hasStart then slice.start else (size : Int) - 1
      let end0 := if slice.hasEnd then slice.stop else -1
      let start1 := if start0 < 0 then start0 + size else start0
      let end1 := if end0 < 0 then end0 + size else end0
      let start2 := if (size : Int) ≤ start1 then (size : Int) - 1 else start1
      let start3 := if start2 < 0 then -1 else start2
      let end2 := if (size : Int) ≤ end1 then (size : Int) - 1 else end1
      let end3 := if end2 < -1 then -1 else end2
      (forDown start3 end3 stp).filter fun i => decide (0 ≤ i ∧ i < (size : Int))

/-- `detail::applyUnionEntry` (json.cpp:2511): one union entry applied to
one node (the ordinary, non-parent-tracking form, which does handle
`Slice` entries). -/
def applyUnionEntry (v : JsonVal) (loc : Loc) (entry : JsonPathUnionEntry) :
    List Loc :=
  match entry.kind with
  | .Name =>
    match v with
    | .obj m =>
      (match mapFind m entry.name with
       | some _ => [loc ++ [.key entry.name]]
       | none => [])
    | _ => []
  | .Index =>
    match v with
    | .arr l =>
      (match normalizeIndex entry.index l.length with
       | some idx => [loc ++ [.idx idx]]
       | none => [])
    | _ => []
  | .Slice =>
    match v with
    | .arr l => (sliceIndices entry.slice l.length).map fun i => loc ++ [.idx i.toNat]
    | _ => []
  | .Wildcard =>
    match v with
    | .arr l => (List.range l.length).map fun i => loc ++ [.idx i]
    | .obj m => m.map fun kv => loc ++ [.key kv.1]
    | _ => []

/-! `detail::collectDescendants` (json.cpp:2421): a node and all its
descendants in document order (pre-order; array indices low to high,
object keys in iteration order). -/

mutual

def descLocs (v : JsonVal) (loc : Loc) : List Loc :=
  loc ::
    (match v with
     | .arr l => descLocsArr l loc 0
     | .obj m => descLocsObj m loc
     | _ => [])

def descLocsArr (l : List JsonVal) (loc : Loc) (i : Nat) : List Loc :=
  match l with
  | [] => []
  | c :: rest => descLocs c (loc ++ [.idx i]) ++ descLocsArr rest loc (i + 1)

def descLocsObj (m : List (List Byte × JsonVal)) (loc : Loc) : List Loc :=
  match m with
  | [] => []
  | (k, c) :: rest => descLocs c (loc ++ [.key k]) ++ descLocsObj rest loc

end

/-! ## Abstract numbers for the filter comparisons

`FilterEvaluator::toNumber` coerces `Long`, `Double`, `Float` and `Bool`
to an IEEE double.  `Long` and `Bool` convert exactly; `Double`/`Float`
are abstract tokens here, so comparisons touching them are modelled. -/

inductive NumRep where
  | exact (x : Int)
  | approx (tok : List Byte)
deriving DecidableEq

/-- Modelled from the spec: whether an abstract double is non-zero.  The
model looks for a non-zero mantissa digit in the token (IEEE underflow to
zero is not modelled); no theorem below depends on this choice. -/
def numTokNonZero (tok : List Byte) : Bool :=
  (tok.takeWhile fun c => c ≠ 101 ∧ c ≠ 69).any fun c => decide (49 ≤ c ∧ c ≤ 57)

namespace FilterEvaluator

/-- `FilterEvaluator::toNumber` (json.cpp:2846). -/
def toNumber (v : JsonVal) : Option NumRep :=
  match v with
  | .long x => some (.exact x)
  | .double tok => some (.approx tok)
  | .float tok => some (.approx tok)
  | .bool b => some (.exact (if b then 1 else 0))
  | _ => none

/-- `FilterEvaluator::toString` (json.cpp:2864). -/
def toString (v : JsonVal) : Option (List Byte) :=
  match v with
  | .str s => some s
  | _ => none

/-- Numeric equality of two coerced numbers (`l == r` on doubles in the
source).  Exact values compare exactly; a comparison involving an
abstract double is modelled as false. -/
def numEq (a b : NumRep) : Bool :=
  match a, b with
  | .exact x, .exact y => x = y
  | .approx t1, .approx t2 => t1 = t2
  | _, _ => false

/-- `FilterEvaluator::compareNumbers` (json.cpp:2923); comparisons
involving an abstract double are modelled as false. -/
def compareNumbers (a b : NumRep) (op : String) : Bool :=
  match a, b with
  | .exact x, .exact y =>
    if op = "<" then x < y
    else if op = "<=" then x ≤ y
    else if op = ">" then y < x
    else if op = ">=" then y ≤ x
    else false
  | _, _ => false

/-- `FilterEvaluator::compareStrings` (json.cpp:2937): byte-wise
`std::string` comparison. -/
def compareStrings (a b : List Byte) (op : String) : Bool :=
  if op = "<" then keyLt a b
  else if op = "<=" then !keyLt b a
  else if op = ">" then keyLt b a
  else if op = ">=" then !keyLt a b
  else false

end FilterEvaluator

/-! `FilterEvaluator::jsonEquals` (json.cpp:2874): same variant and same
content; number variants of different tags compare by numeric value
(`toNumber`, modelled through `numEq` for abstract doubles). -/

mutual

def jsonEquals (lhs rhs : JsonVal) : Bool :=
  match lhs, rhs with
  | .null, .null => true
  | .bool a, .bool b => a = b
  | .long a, .long b => a = b
  | .float a, .float b => a = b
  | .double a, .double b => a = b
  | .str a, .str b => a = b
  | .arr a, .arr b => jsonEqualsList a b
  | .obj a, .obj b => jsonEqualsMembers a b
  | _, _ =>
    -- different tags: numbers still compare by value
    match FilterEvaluator.toNumber lhs, FilterEvaluator.toNumber rhs with
    | some a, some b => lhs.isNumber && rhs.isNumber && FilterEvaluator.numEq a b
    | _, _ => false

def jsonEqualsList : List JsonVal → List JsonVal → Bool
  | [], [] => true
  | a :: as, b :: bs => jsonEquals a b && jsonEqualsList as bs
  | _, _ => false

def jsonEqualsMembers : List (List Byte × JsonVal) → List (List Byte × JsonVal) → Bool
  | [], [] => true
  | (k1, v1) :: as, (k2, v2) :: bs => k1 = k2 && jsonEquals v1 v2 && jsonEqualsMembers as bs
  | _, _ => false

end

namespace FilterEvaluator

/-- `FilterEvaluator::truthy(const Json&)` (json.cpp:2826). -/
def truthyVal (v : JsonVal) : Bool :=
  match v with
  | .null => false
  | .bool b => b
  | .long x => x ≠ 0
  | .double tok => numTokNonZero tok
  | .float tok => numTokNonZero tok
  | .str s => !s.isEmpty
  | .arr l => !l.isEmpty
  | .obj m => !m.isEmpty

/-- `FilterEvaluator::truthy(const EvaluatedOperand&)` (json.cpp:2816). -/
def truthy (nodes : List JsonVal) : Bool := nodes.any truthyVal

/-- `FilterEvaluator::equalsAny` (json.cpp:2731). -/
def equalsAny (lhs rhs : List JsonVal) : Bool :=
  if lhs.isEmpty || rhs.isEmpty then false
  else lhs.any fun l => rhs.any fun r => jsonEquals l r

/-- `FilterEvaluator::notEquals` (json.cpp:2746): false on an empty left
node set, true on an empty right node set, and otherwise true exactly
when some left node equals no right node. -/
def notEquals (lhs rhs : List JsonVal) : Bool :=
  if lhs.isEmpty then false
  else if rhs.isEmpty then true
  else lhs.any fun l => !(rhs.any fun r => jsonEquals l r)

/-- `FilterEvaluator::relational` (json.cpp:2768). -/
def relational (op : String) (lhs rhs : List JsonVal) : Bool :=
  if lhs.isEmpty || rhs.isEmpty then false
  else
    lhs.any fun l =>
      rhs.any fun r =>
        (match toNumber l, toNumber r with
         | some a, some b => compareNumbers a b op
         | _, _ => false) ||
        (match toString l, toString r with
         | some a, some b => compareStrings a b op
         | _, _ => false)

/-- A byte-list substring test, for the modelled `=~`. -/
def leadsWith : List Byte → List Byte → Bool
  | _, [] => true
  | [], _ :: _ => false
  | h :: hs, p :: ps => h = p && leadsWith hs ps

def hasSub (hay pat : List Byte) : Bool :=
  if leadsWith hay pat then true
  else
    match hay with
    | [] => false
    | _ :: rest => hasSub rest pat

/-- `FilterEvaluator::regexMatch` (json.cpp:2794).  Modelled from the
spec: the regex dialect of `=~` is explicitly unpinned ("standard",
§9), and `std::regex` is outside this embedding; the model treats the
pattern as a literal substring to search for.  No theorem below depends
on this choice. -/
def regexMatch (lhs rhs : List JsonVal) : Bool :=
  if lhs.isEmpty || rhs.isEmpty then false
  else
    match rhs.head? with
    | none => false
    | some r0 =>
      match toString r0 with
      | none => false
      | some pattern =>
        lhs.any fun l =>
          match toString l with
          | some text => hasSub text pattern
          | none => false

/-- `FilterEvaluator::compare` (json.cpp:2715). -/
def compare (op : String) (lhs rhs : List JsonVal) : Bool :=
  if op = "==" then equalsAny lhs rhs
  else if op = "!=" then notEquals lhs rhs
  else if op = "<" ∨ op = "<=" ∨ op = ">" ∨ op = ">=" then relational op lhs rhs
  else if op = "=~" then regexMatch lhs rhs
  else false

/-- `FilterEvaluator::computeLength` (json.cpp:2953). -/
def computeLength (v : JsonVal) : Int :=
  match v with
  | .str s => s.length
  | .arr l => l.length
  | .obj m => m.length
  | _ => 0

end FilterEvaluator

/-! ## The path evaluator (json.cpp:2967)

`evaluatePathInternal` is generic over mutable/immutable views; both
instantiations share this one embedding (node pointers become `Loc`s).
Filter evaluation re-enters the evaluator on sub-paths, so the group
below is fuel-indexed; every theorem about it holds for every fuel. -/

mutual

/-- `FilterEvaluator::evaluate` (json.cpp:2625). -/
def FilterEvaluator.evaluate (fuel : Nat) (node : Option FilterNode)
    (documentRoot context : JsonVal) : Bool :=
  match fuel with
  | 0 => false
  | fuel + 1 =>
    match node with
    | none => false
    | some (.mk kind op lhs rhs exOp left right) =>
      match kind with
      | .Or =>
        FilterEvaluator.evaluate fuel left documentRoot context ||
          FilterEvaluator.evaluate fuel right documentRoot context
      | .And =>
        FilterEvaluator.evaluate fuel left documentRoot context &&
          FilterEvaluator.evaluate fuel right documentRoot context
      | .Not => !FilterEvaluator.evaluate fuel left documentRoot context
      | .Comparison =>
        FilterEvaluator.compare op
          (FilterEvaluator.evaluateOperand fuel lhs documentRoot context)
          (FilterEvaluator.evaluateOperand fuel rhs documentRoot context)
      | .Exists =>
        FilterEvaluator.truthy
          (FilterEvaluator.evaluateOperand fuel exOp documentRoot context)

/-- `FilterEvaluator::evaluateOperand` (json.cpp:2654), with
`FilterEvaluator::evaluatePath` (json.cpp:2678) inlined in the `Path`
case: a relative path starts at the context node, an absolute one at the
document root. -/
def FilterEvaluator.evaluateOperand (fuel : Nat) (operand : FilterOperand)
    (documentRoot context : JsonVal) : List JsonVal :=
  match fuel with
  | 0 => []
  | fuel + 1 =>
    match operand with
    | .mk ty lit path fn =>
      match ty with
      | .Literal => [lit]
      | .Path =>
        match path with
        | .mk relative steps =>
          let base := if relative then context else documentRoot
          (evalSteps fuel base documentRoot steps [[]]).map (nodeAt base)
      | .Function =>
        match fn with
        | some f => [FilterEvaluator.evaluateFunction fuel f documentRoot context]
        | none => []

/-- `FilterEvaluator::evaluateFunction` (json.cpp:2688).  The source
throws a runtime error unless exactly one argument is supplied; arity
errors and the unreachable `Size` tag are modelled as the scalar 0. -/
def FilterEvaluator.evaluateFunction (fuel : Nat) (fn : FunctionCall)
    (documentRoot context : JsonVal) : JsonVal :=
  match fuel with
  | 0 => .long 0
  | fuel + 1 =>
    match fn with
    | .mk name args =>
      match args with
      | [arg] =>
        (match (FilterEvaluator.evaluateOperand fuel arg documentRoot context).head? with
         | none => .long 0
         | some target =>
           match name with
           | .Length => .long (FilterEvaluator.computeLength target)
           | .Count =>
             (match target with
              | .arr l => .long l.length
              | .obj m => .long m.length
              | _ => .long 1)
           | .Size => .long 0)
      | _ => .long 0

/-- The step loop of `detail::evaluatePathInternal` (json.cpp:2985):
expand the working set through descendants when the step is recursive,
then apply the step to every base node. -/
def evalSteps (fuel : Nat) (startVal documentRoot : JsonVal)
    (steps : List JsonPathStep) (current : List Loc) : List Loc :=
  match fuel with
  | 0 => []
  | fuel + 1 =>
    match steps with
    | [] => current
    | step :: rest =>
      let base :=
        if step.recursive then current.flatMap fun l => descLocs (nodeAt startVal l) l
        else current
      let next := base.flatMap (applyStepAt fuel startVal documentRoot step)
      evalSteps fuel startVal documentRoot rest next

/-- The per-node switch of `detail::evaluatePathInternal`
(json.cpp:3017). -/
def applyStepAt (fuel : Nat) (startVal documentRoot : JsonVal)
    (step : JsonPathStep) (loc : Loc) : List Loc :=
  match fuel with
  | 0 => []
  | fuel + 1 =>
    let node := nodeAt startVal loc
    match step.kind with
    | .Name =>
      (match node with
       | .obj m =>
         (match mapFind m step.name with
          | some _ => [loc ++ [.key step.name]]
          | none => [])
       | _ => [])
    | .Wildcard =>
      (match node with
       | .arr l => (List.range l.length).map fun i => loc ++ [.idx i]
       | .obj m => m.map fun kv => loc ++ [.key kv.1]
       | _ => [])
    | .Indices =>
      (match node with
       | .arr l =>
         step.indices.filterMap fun raw =>
           (normalizeIndex raw l.length).map fun idx => loc ++ [.idx idx]
       | _ => [])
    | .Slice =>
      (match node with
       | .arr l => (sliceIndices step.slice l.length).map fun i => loc ++ [.idx i.toNat]
       | _ => [])
    | .Union => step.unionEntries.flatMap (applyUnionEntry node loc)
    | .Filter =>
      match step.filter with
      | none => []
      | some _ =>
        match node with
        | .arr l =>
          (List.range l.length).filterMap fun i =>
            if FilterEvaluator.evaluate fuel step.filter documentRoot (l.getD i .null)
            then some (loc ++ [.idx i]) else none
        | .obj m =>
          m.filterMap fun kv =>
            if FilterEvaluator.evaluate fuel step.filter documentRoot kv.2
            then some (loc ++ [.key kv.1]) else none
        | _ => []

end

/-- `detail::evaluatePathInternal` (json.cpp:2967): start from the given
node and fold the steps.  (`evaluatePathMutable` / `evaluatePathConst`
are both this function.) -/
def evaluatePath (fuel : Nat) (startVal documentRoot : JsonVal)
    (steps : List JsonPathStep) : List Loc :=
  evalSteps fuel startVal documentRoot steps [[]]

/-! ## The parent-tracking evaluator (json.cpp:3152)

`deleteJsonpath` evaluates the path with
`evaluatePathWithParentInternal`, whose matches carry their parent and
either an array index or an object key. -/

/-- The location-type tag of `detail::JsonPathNodeWithParent`
(json.cpp:3156). -/
inductive LocationType where
  | ArrayIndex
  | ObjectKey
  | Root
deriving DecidableEq

/-- `detail::JsonPathNodeWithParent` (json.cpp:3152): the matched node
(`node`, a pointer in the source, a `Loc` here), its parent (null for the
root item), and how the node hangs off the parent. -/
structure JsonPathNodeWithParent where
  node : Loc
  parent : Option Loc := none
  locationType : LocationType := .Root
  arrayIndex : Nat := 0
  objectKey : List Byte := []
deriving DecidableEq

/-! `detail::collectDescendantsWithParent` (json.cpp:3166): unlike
`collectDescendants`, the node itself is skipped (`skipRoot`); only its
proper descendants are produced, each with parent data. -/

mutual

def descP (v : JsonVal) (loc : Loc) : List JsonPathNodeWithParent :=
  match v with
  | .arr l => descPArr l loc 0
  | .obj m => descPObj m loc
  | _ => []

def descPArr (l : List JsonVal) (loc : Loc) (i : Nat) :
    List JsonPathNodeWithParent :=
  match l with
  | [] => []
  | c :: rest =>
    { node := loc ++ [.idx i], parent := some loc, locationType := .ArrayIndex,
      arrayIndex := i } ::
      (descP c (loc ++ [.idx i]) ++ descPArr rest loc (i + 1))

def descPObj (m : List (List Byte × JsonVal)) (loc : Loc) :
    List JsonPathNodeWithParent :=
  match m with
  | [] => []
  | (k, c) :: rest =>
    { node := loc ++ [.key k], parent := some loc, locationType := .ObjectKey,
      objectKey := k } ::
      (descP c (loc ++ [.key k]) ++ descPObj rest loc)

end

/-- The per-node switch of `detail::evaluatePathWithParentInternal`
(json.cpp:3264).  The `Union` case handles `Name`, `Index` and
`Wildcard` entries but drops `Slice` entries (json.cpp:3425), and the
`Slice` step repeats the `applySlice` index arithmetic inline. -/
def applyStepP (fuel : Nat) (startVal documentRoot : JsonVal)
    (step : JsonPathStep) (item : JsonPathNodeWithParent) :
    List JsonPathNodeWithParent :=
  match fuel with
  | 0 => []
  | fuel + 1 =>
    let loc := item.node
    let node := nodeAt startVal loc
    match step.kind with
    | .Name =>
      (match node with
       | .obj m =>
         (match mapFind m step.name with
          | some _ =>
            [{ node := loc ++ [.key step.name], parent := some loc,
               locationType := .ObjectKey, objectKey := step.name }]
          | none => [])
       | _ => [])
    | .Wildcard =>
      (match node with
       | .arr l =>
         (List.range l.length).map fun i =>
           { node := loc ++ [.idx i], parent := some loc,
             locationType := .ArrayIndex, arrayIndex := i }
       | .obj m =>
         m.map fun kv =>
           { node := loc ++ [.key kv.1], parent := some loc,
             locationType := .ObjectKey, objectKey := kv.1 }
       | _ => [])
    | .Indices =>
      (match node with
       | .arr l =>
         step.indices.filterMap fun raw =>
           (normalizeIndex raw l.length).map fun idx =>
             { node := loc ++ [.idx idx], parent := some loc,
               locationType := .ArrayIndex, arrayIndex := idx }
       | _ => [])
    | .Slice =>
      (match node with
       | .arr l =>
         (sliceIndices step.slice l.length).map fun i =>
           { node := loc ++ [.idx i.toNat], parent := some loc,
             locationType := .ArrayIndex, arrayIndex := i.toNat }
       | _ => [])
    | .Union =>
      step.unionEntries.flatMap fun entry =>
        match entry.kind with
        | .Name =>
          (match node with
           | .obj m =>
             (match mapFind m entry.name with
              | some _ =>
                [{ node := loc ++ [.key entry.name], parent := some loc,
                   locationType := .ObjectKey, objectKey := entry.name }]
              | none => [])
           | _ => [])
        | .Index =>
          (match node with
           | .arr l =>
             (match normalizeIndex entry.index l.length with
              | some idx =>
                [{ node := loc ++ [.idx idx], parent := some loc,
                   locationType := .ArrayIndex, arrayIndex := idx }]
              | none => [])
           | _ => [])
        | .Slice => [] -- dropped by the parent-tracking union (json.cpp:3425)
        | .Wildcard =>
          (match node with
           | .arr l =>
             (List.range l.length).map fun i =>
               { node := loc ++ [.idx i], parent := some loc,
                 locationType := .ArrayIndex, arrayIndex := i }
           | .obj m =>
             m.map fun kv =>
               { node := loc ++ [.key kv.1], parent := some loc,
                 locationType := .ObjectKey, objectKey := kv.1 }
           | _ => [])
    | .Filter =>
      match step.filter with
      | none => []
      | some _ =>
        match node with
        | .arr l =>
          (List.range l.length).filterMap fun i =>
            if FilterEvaluator.evaluate fuel step.filter documentRoot (l.getD i .null)
            then some { node := loc ++ [.idx i], parent := some loc,
                        locationType := .ArrayIndex, arrayIndex := i }
            else none
        | .obj m =>
          m.filterMap fun kv =>
            if FilterEvaluator.evaluate fuel step.filter documentRoot kv.2
            then some { node := loc ++ [.key kv.1], parent := some loc,
                        locationType := .ObjectKey, objectKey := kv.1 }
            else none
        | _ => []

/-- The step loop of `detail::evaluatePathWithParentInternal`
(json.cpp:3233). -/
def evalStepsP (fuel : Nat) (startVal documentRoot : JsonVal)
    (steps : List JsonPathStep) (current : List JsonPathNodeWithParent) :
    List JsonPathNodeWithParent :=
  match fuel with
  | 0 => []
  | fuel + 1 =>
    match steps with
    | [] => current
    | step :: rest =>
      let base :=
        if step.recursive then
          current.flatMap fun item => descP (nodeAt startVal item.node) item.node
        else current
      let next := base.flatMap (applyStepP fuel startVal documentRoot step)
      evalStepsP fuel startVal documentRoot rest next

/-- `detail::evaluatePathWithParentInternal` (json.cpp:3215): start from
the root item (null parent) and fold the steps. -/
def evaluatePathWithParent (fuel : Nat) (startVal documentRoot : JsonVal)
    (steps : List JsonPathStep) : List JsonPathNodeWithParent :=
  evalStepsP fuel startVal documentRoot steps [{ node := [] }]

/-! ## The JSONPath compiler (json.cpp:1538)

`JsonPathParser` and `FilterExpressionParser` walk an expression string
with a position index and throw `std::runtime_error` on malformed input;
here they thread `(position)` state explicitly and return
`Except String`.  Loops are fuel-driven; the public wrappers pass ample
fuel. -/

/-- `std::isspace` on a byte. -/
def isspaceB (c : Byte) : Bool := decide (c = 32 ∨ (9 ≤ c ∧ c ≤ 13))

/-- `std::isalpha` on a byte. -/
def isalphaB (c : Byte) : Bool := decide ((65 ≤ c ∧ c ≤ 90) ∨ (97 ≤ c ∧ c ≤ 122))

/-- `std::isalnum` on a byte. -/
def isalnumB (c : Byte) : Bool := isalphaB c || isDigit c

/-- `std::tolower` on a byte. -/
def tolowerB (c : Byte) : Byte := if 65 ≤ c ∧ c ≤ 90 then c + 32 else c

/-- The number of leading whitespace bytes. -/
def wsSpan : List Byte → Nat
  | [] => 0
  | c :: rest => if isspaceB c then wsSpan rest + 1 else 0

/-- `JsonPathParser::skipWhitespace` (json.cpp:1628). -/
def jpSkipWs (inp : List Byte) (pos : Nat) : Nat :=
  pos + wsSpan (inp.drop pos)

def natFromDigits (l : List Byte) : Nat := l.foldl (fun acc c => acc * 10 + (c - 48)) 0

/-- `JsonPathParser::parseSignedInteger` (json.cpp:1645): optional sign,
at least one digit, value via `strtoll`. -/
def jpParseSignedInteger (inp : List Byte) (pos : Nat) : Option (Int × Nat) :=
  let pos1 := jpSkipWs inp pos
  let hasSign := pos1 < inp.length ∧ (inp.getD pos1 0 = 43 ∨ inp.getD pos1 0 = 45)
  let pos2 := if hasSign then pos1 + 1 else pos1
  let dlen := digitSpan (inp.drop pos2)
  if dlen = 0 then none
  else
    let mag : Int := natFromDigits ((inp.drop pos2).take dlen)
    some (if hasSign ∧ inp.getD pos1 0 = 45 then -mag else mag, pos2 + dlen)

def identTailSpan : List Byte → Nat
  | [] => 0
  | c :: rest =>
    if isalnumB c || c = 95 || c = 45 then identTailSpan rest + 1 else 0

/-- `JsonPathParser::parseIdentifier` (json.cpp:1666):
`[A-Za-z_$] [A-Za-z0-9_-]*`. -/
def jpParseIdentifier (inp : List Byte) (pos : Nat) :
    Except String (List Byte × Nat) :=
  if pos < inp.length then
    let c := inp.getD pos 0
    if isalphaB c || c = 95 || c = 36 then
      let len := identTailSpan (inp.drop (pos + 1))
      .ok ((inp.drop pos).take (1 + len), pos + 1 + len)
    else .error "Invalid identifier start"
  else .error "Expected identifier"

/-- `parseUnicodeEscape` (json.cpp:1435): four hex digits (through
`hexValue`, json.cpp:1401, which maps the same bytes as `kHexToInt`). -/
def jpUnicodeEscape (inp : List Byte) (pos : Nat) : Except String (Nat × Nat) :=
  if pos + 4 > inp.length then .error "Incomplete unicode escape sequence"
  else
    match hexToInt (inp.getD pos 0), hexToInt (inp.getD (pos + 1) 0),
        hexToInt (inp.getD (pos + 2) 0), hexToInt (inp.getD (pos + 3) 0) with
    | some a, some b, some c, some d =>
      .ok ((a <<< 12) ||| (b <<< 8) ||| (c <<< 4) ||| d, pos + 4)
    | _, _, _, _ => .error "Invalid unicode escape"

/-- `appendUtf8` (json.cpp:1413). -/
def appendUtf8E (out : List Byte) (cp : Nat) : Except String (List Byte) :=
  if cp ≤ 0x7f then .ok (out ++ [cp])
  else if cp ≤ 0x7ff then
    .ok (out ++ [0xc0 ||| (cp >>> 6), 0x80 ||| (cp &&& 0x3f)])
  else if cp ≤ 0xffff then
    .ok (out ++ [0xe0 ||| (cp >>> 12), 0x80 ||| ((cp >>> 6) &&& 0x3f),
      0x80 ||| (cp &&& 0x3f)])
  else if cp ≤ 0x10ffff then
    .ok (out ++ [0xf0 ||| (cp >>> 18), 0x80 ||| ((cp >>> 12) &&& 0x3f),
      0x80 ||| ((cp >>> 6) &&& 0x3f), 0x80 ||| (cp &&& 0x3f)])
  else .error "Unicode codepoint out of range"

/-- The scan loop of `parseStringLiteral` (json.cpp:1451). -/
def jpStringLitLoop (fuel : Nat) (inp : List Byte) (pos : Nat) (quote : Byte)
    (acc : List Byte) : Except String (List Byte × Nat) :=
  match fuel with
  | 0 => .error "out of fuel"
  | fuel + 1 =>
    if pos ≥ inp.length then .error "Unterminated string literal in JSONPath expression"
    else
      let c := inp.getD pos 0
      if c = quote then .ok (acc, pos + 1)
      else if c = 92 then
        if pos + 1 ≥ inp.length then .error "Incomplete escape sequence in JSONPath string literal"
        else
          let esc := inp.getD (pos + 1) 0
          if esc = 92 ∨ esc = 34 ∨ esc = 39 then
            jpStringLitLoop fuel inp (pos + 2) quote (acc ++ [esc])
          else if esc = 98 then jpStringLitLoop fuel inp (pos + 2) quote (acc ++ [8])
          else if esc = 102 then jpStringLitLoop fuel inp (pos + 2) quote (acc ++ [12])
          else if esc = 110 then jpStringLitLoop fuel inp (pos + 2) quote (acc ++ [10])
          else if esc = 114 then jpStringLitLoop fuel inp (pos + 2) quote (acc ++ [13])
          else if esc = 116 then jpStringLitLoop fuel inp (pos + 2) quote (acc ++ [9])
          else if esc = 117 then do
            let (cp, pos2) ← jpUnicodeEscape inp (pos + 2)
            if 0xd800 ≤ cp ∧ cp ≤ 0xdbff then
              if pos2 + 2 ≥ inp.length ∨ inp.getD pos2 0 ≠ 92 ∨
                  inp.getD (pos2 + 1) 0 ≠ 117 then
                .error "Invalid high surrogate in JSONPath string literal"
              else do
                let (low, pos3) ← jpUnicodeEscape inp (pos2 + 2)
                if 0xdc00 ≤ low ∧ low ≤ 0xdfff then do
                  let acc2 ← appendUtf8E acc
                    (0x10000 + ((cp - 0xd800) <<< 10) + (low - 0xdc00))
                  jpStringLitLoop fuel inp pos3 quote acc2
                else .error "Invalid low surrogate in JSONPath string literal"
            else if 0xdc00 ≤ cp ∧ cp ≤ 0xdfff then
              .error "Unexpected low surrogate in JSONPath string literal"
            else do
              let acc2 ← appendUtf8E acc cp
              jpStringLitLoop fuel inp pos2 quote acc2
          else .error "Invalid escape sequence in JSONPath string literal"
      else jpStringLitLoop fuel inp (pos + 1) quote (acc ++ [c])

/-- `parseStringLiteral` (json.cpp:1451). -/
def jpStringLit (fuel : Nat) (inp : List Byte) (pos : Nat) :
    Except String (List Byte × Nat) :=
  if pos ≥ inp.length then .error "Expected string literal"
  else
    let quote := inp.getD pos 0
    if quote ≠ 39 ∧ quote ≠ 34 then .error "Expected quote character"
    else jpStringLitLoop fuel inp (pos + 1) quote []

/-- The scan loop of `skipQuotedString` (json.cpp:1515). -/
def jpSkipQuotedLoop (fuel : Nat) (inp : List Byte) (pos : Nat) (quote : Byte) :
    Except String Nat :=
  match fuel with
  | 0 => .error "out of fuel"
  | fuel + 1 =>
    if pos ≥ inp.length then .error "Unterminated string literal in JSONPath expression"
    else
      let c := inp.getD pos 0
      if c = quote then .ok (pos + 1)
      else if c = 92 then
        if pos + 1 ≥ inp.length then .error "Incomplete escape sequence in JSONPath string literal"
        else jpSkipQuotedLoop fuel inp (pos + 2) quote
      else jpSkipQuotedLoop fuel inp (pos + 1) quote

/-- `skipQuotedString` (json.cpp:1515). -/
def jpSkipQuoted (fuel : Nat) (inp : List Byte) (pos : Nat) : Except String Nat :=
  if pos ≥ inp.length then .error "Expected quoted string"
  else
    let quote := inp.getD pos 0
    if quote ≠ 39 ∧ quote ≠ 34 then .error "Expected quote character"
    else jpSkipQuotedLoop fuel inp (pos + 1) quote

/-- The balanced-parenthesis scan of the filter branch of `parseBracket`
(json.cpp:1822): find the `)` matching the already-consumed `(`,
skipping quoted strings; returns the position after that `)`. -/
def jpScanFilter (fuel : Nat) (inp : List Byte) (pos : Nat) (depth : Nat) :
    Except String Nat :=
  match fuel with
  | 0 => .error "out of fuel"
  | fuel + 1 =>
    if depth = 0 then .ok pos
    else if pos ≥ inp.length then .error "Unterminated filter expression"
    else
      let c := inp.getD pos 0
      if c = 39 ∨ c = 34 then do
        let pos2 ← jpSkipQuoted fuel inp pos
        jpScanFilter fuel inp pos2 depth
      else if c = 40 then jpScanFilter fuel inp (pos + 1) (depth + 1)
      else if c = 41 then jpScanFilter fuel inp (pos + 1) (depth - 1)
      else jpScanFilter fuel inp (pos + 1) depth

/-! ### The filter-expression lexer (json.cpp:2014) -/

inductive FeTokenType where
  | End
  | TrueLiteral
  | FalseLiteral
  | NullLiteral
  | Number
  | String
  | Path
  | Identifier
  | LParen
  | RParen
  | Not
  | And
  | Or
  | Eq
  | Ne
  | Lt
  | Le
  | Gt
  | Ge
  | Regex
  | Comma
deriving DecidableEq

/-- `FilterExpressionParser::Token` (json.cpp:1601).  The `number` field
(a `strtod` of `text`) is omitted: numeric literals carry their token
text, which is how this embedding represents doubles throughout. -/
structure FeToken where
  type : FeTokenType := .End
  text : List Byte := []
deriving DecidableEq

/-- `FilterExpressionParser::parsePathLiteral` (json.cpp:2341): scan the
extent of a `@`/`$` path operand, tracking bracket depth and skipping
quoted strings; at top level the path ends at whitespace or at one of
`( ) , ! = < > & |`; returns the end position. -/
def fePathLitEnd (fuel : Nat) (inp : List Byte) (pos : Nat) (bracketDepth : Nat) :
    Except String Nat :=
  match fuel with
  | 0 => .error "out of fuel"
  | fuel + 1 =>
    if pos ≥ inp.length then .ok pos
    else
      let c := inp.getD pos 0
      if c = 39 ∨ c = 34 then do
        let pos2 ← jpSkipQuoted fuel inp pos
        fePathLitEnd fuel inp pos2 bracketDepth
      else if c = 91 then fePathLitEnd fuel inp (pos + 1) (bracketDepth + 1)
      else if c = 93 then
        if bracketDepth = 0 then .ok pos
        else fePathLitEnd fuel inp (pos + 1) (bracketDepth - 1)
      else if bracketDepth = 0 ∧ (isspaceB c ∨ c = 41 ∨ c = 40 ∨ c = 44 ∨
          c = 33 ∨ c = 61 ∨ c = 60 ∨ c = 62 ∨ c = 38 ∨ c = 124) then
        .ok pos
      else fePathLitEnd fuel inp (pos + 1) bracketDepth

/-- `FilterExpressionParser::lex` (json.cpp:2014). -/
def feLex (fuel : Nat) (inp : List Byte) (pos0 : Nat) :
    Except String (FeToken × Nat) :=
  let pos := jpSkipWs inp pos0
  if pos ≥ inp.length then .ok ({ type := .End }, pos)
  else
    let c := inp.getD pos 0
    let has1 := pos + 1 < inp.length
    let c1 := inp.getD (pos + 1) 0
    if c = 38 ∧ has1 ∧ c1 = 38 then .ok ({ type := .And, text := [38, 38] }, pos + 2)
    else if c = 124 ∧ has1 ∧ c1 = 124 then .ok ({ type := .Or, text := [124, 124] }, pos + 2)
    else if c = 61 ∧ has1 ∧ c1 = 61 then .ok ({ type := .Eq, text := [61, 61] }, pos + 2)
    else if c = 33 ∧ has1 ∧ c1 = 61 then .ok ({ type := .Ne, text := [33, 61] }, pos + 2)
    else if c = 60 ∧ has1 ∧ c1 = 61 then .ok ({ type := .Le, text := [60, 61] }, pos + 2)
    else if c = 60 then .ok ({ type := .Lt, text := [60] }, pos + 1)
    else if c = 62 ∧ has1 ∧ c1 = 61 then .ok ({ type := .Ge, text := [62, 61] }, pos + 2)
    else if c = 62 then .ok ({ type := .Gt, text := [62] }, pos + 1)
    else if c = 61 ∧ has1 ∧ c1 = 126 then .ok ({ type := .Regex, text := [61, 126] }, pos + 2)
    else if c = 33 then .ok ({ type := .Not, text := [33] }, pos + 1)
    else if c = 40 then .ok ({ type := .LParen, text := [40] }, pos + 1)
    else if c = 41 then .ok ({ type := .RParen, text := [41] }, pos + 1)
    else if c = 44 then .ok ({ type := .Comma, text := [44] }, pos + 1)
    else if c = 39 ∨ c = 34 then do
      let (s, pos2) ← jpStringLit fuel inp pos
      .ok ({ type := .String, text := s }, pos2)
    else if c = 64 ∨ c = 36 then do
      let pos2 ← fePathLitEnd fuel inp pos 0
      if pos2 = pos then .error "Expected path literal"
      else .ok ({ type := .Path, text := (inp.take pos2).drop pos }, pos2)
    else if isDigit c ∨ c = 45 ∨ c = 43 then
      let p1 := if c = 45 ∨ c = 43 then pos + 1 else pos
      let d1 := digitSpan (inp.drop p1)
      let p2 := p1 + d1
      let (p3, d2) : Nat × Nat :=
        if p2 < inp.length ∧ inp.getD p2 0 = 46 then
          (p2 + 1 + digitSpan (inp.drop (p2 + 1)), digitSpan (inp.drop (p2 + 1)))
        else (p2, 0)
      let (p4, d3) : Nat × Nat :=
        if p3 < inp.length ∧ (inp.getD p3 0 = 101 ∨ inp.getD p3 0 = 69) then
          let pe := if p3 + 1 < inp.length ∧ (inp.getD (p3 + 1) 0 = 43 ∨
              inp.getD (p3 + 1) 0 = 45) then p3 + 2 else p3 + 1
          (pe + digitSpan (inp.drop pe), digitSpan (inp.drop pe))
        else (p3, 0)
      if d1 + d2 + d3 = 0 then .error "Invalid numeric literal in filter expression"
      else .ok ({ type := .Number, text := (inp.take p4).drop pos }, p4)
    else if isalphaB c ∨ c = 95 then
      let len := identTailSpan (inp.drop pos)
      let text := (inp.drop pos).take len
      let ty : FeTokenType :=
        if text = [116, 114, 117, 101] then .TrueLiteral
        else if text = [102, 97, 108, 115, 101] then .FalseLiteral
        else if text = [110, 117, 108, 108] then .NullLiteral
        else .Identifier
      .ok ({ type := ty, text := text }, pos + len)
    else .error "Unexpected character in filter expression"

/-- `strtoll` on a numeric token (sign plus leading digits). -/
def strtollBytes (t : List Byte) : Int :=
  match t with
  | 45 :: r => -(natFromDigits (r.take (digitSpan r)) : Int)
  | 43 :: r => (natFromDigits (r.take (digitSpan r)) : Int)
  | _ => (natFromDigits (t.take (digitSpan t)) : Int)

/-- The lexer state of `FilterExpressionParser`: the current token and
the position after it. -/
abbrev FeState := FeToken × Nat

mutual

/-- `JsonPathParser::parse` (json.cpp:1686). -/
def jpParseFull (fuel : Nat) (inp : List Byte) : Except String CompiledPath :=
  match fuel with
  | 0 => .error "out of fuel"
  | fuel + 1 =>
    let pos := jpSkipWs inp 0
    if pos ≥ inp.length then .error "Empty JSONPath expression"
    else
      let root := inp.getD pos 0
      if root = 36 then do
        let steps ← jpParseSegments fuel inp (pos + 1) []
        .ok (.mk false steps)
      else if root = 64 then do
        let steps ← jpParseSegments fuel inp (pos + 1) []
        .ok (.mk true steps)
      else .error "JSONPath must start with a root symbol"
termination_by structural fuel

/-- The segment loop of `JsonPathParser::parse` (json.cpp:1702). -/
def jpParseSegments (fuel : Nat) (inp : List Byte) (pos : Nat)
    (acc : List JsonPathStep) : Except String (List JsonPathStep) :=
  match fuel with
  | 0 => .error "out of fuel"
  | fuel + 1 =>
    let pos1 := jpSkipWs inp pos
    if pos1 ≥ inp.length then .ok acc
    else do
      let (step, pos2) ← jpParseSegment fuel inp pos1
      jpParseSegments fuel inp pos2 (acc ++ [step])
termination_by structural fuel

/-- `JsonPathParser::parseSegment` (json.cpp:1770): one leading `.` and
an optional second `.` for recursive descent, then a bracket, a `*` or an
identifier. -/
def jpParseSegment (fuel : Nat) (inp : List Byte) (pos : Nat) :
    Except String (JsonPathStep × Nat) :=
  match fuel with
  | 0 => .error "out of fuel"
  | fuel + 1 =>
    let pos1 := jpSkipWs inp pos
    let (recursive, pos2) : Bool × Nat :=
      if pos1 < inp.length ∧ inp.getD pos1 0 = 46 then
        if pos1 + 1 < inp.length ∧ inp.getD (pos1 + 1) 0 = 46 then (true, pos1 + 2)
        else (false, pos1 + 1)
      else (false, pos1)
    let pos3 := jpSkipWs inp pos2
    if pos3 ≥ inp.length then .error "Incomplete JSONPath segment"
    else if inp.getD pos3 0 = 91 then jpParseBracket fuel inp pos3 recursive
    else if inp.getD pos3 0 = 42 then
      .ok (.mk .Wildcard recursive [] [] {} [] none, pos3 + 1)
    else do
      let (name, pos4) ← jpParseIdentifier inp pos3
      .ok (.mk .Name recursive name [] {} [] none, pos4)
termination_by structural fuel

/-- `JsonPathParser::parseBracket` (json.cpp:1806). -/
def jpParseBracket (fuel : Nat) (inp : List Byte) (pos : Nat)
    (recursive : Bool) : Except String (JsonPathStep × Nat) :=
  match fuel with
  | 0 => .error "out of fuel"
  | fuel + 1 =>
    let pos2 := jpSkipWs inp (pos + 1)
    if pos2 ≥ inp.length then .error "Unterminated bracket segment"
    else if inp.getD pos2 0 = 63 then -- ?(FilterExpr)
      let pos3 := jpSkipWs inp (pos2 + 1)
      if pos3 ≥ inp.length ∨ inp.getD pos3 0 ≠ 40 then
        .error "Expected lparen after question mark in filter expression"
      else do
        let posAfter ← jpScanFilter fuel inp (pos3 + 1) 1
        let exprEnd := posAfter - 1
        let filterExpr := (inp.drop (pos3 + 1)).take (exprEnd - (pos3 + 1))
        let pos4 := jpSkipWs inp posAfter
        if pos4 ≥ inp.length ∨ inp.getD pos4 0 ≠ 93 then
          .error "Expected rbracket after filter expression"
        else do
          let fnode ← jpParseFilterExpression fuel filterExpr
          .ok (.mk .Filter recursive [] [] {} [] (some fnode), pos4 + 1)
    else if inp.getD pos2 0 = 42 then -- [*]
      let pos3 := jpSkipWs inp (pos2 + 1)
      if pos3 ≥ inp.length ∨ inp.getD pos3 0 ≠ 93 then
        .error "Expected rbracket after star"
      else .ok (.mk .Wildcard recursive [] [] {} [] none, pos3 + 1)
    else do
      let (e1, pos3) ← jpParseBracketEntry fuel inp pos2
      let (entries, pos4) ← jpParseEntryList fuel inp (jpSkipWs inp pos3) [e1]
      if pos4 ≥ inp.length ∨ inp.getD pos4 0 ≠ 93 then
        .error "Expected rbracket after bracket expression"
      else
        let step : JsonPathStep :=
          match entries with
          | [e] =>
            (match e.kind with
             | .Name => .mk .Name recursive e.name [] {} [] none
             | .Index => .mk .Indices recursive [] [e.index] {} [] none
             | .Slice => .mk .Slice recursive [] [] e.slice [] none
             | .Wildcard => .mk .Wildcard recursive [] [] {} [] none)
          | es => .mk .Union recursive [] [] {} es none
        .ok (step, pos4 + 1)
termination_by structural fuel

/-- The `,`-separated entry loop of `parseBracket` (json.cpp:1863). -/
def jpParseEntryList (fuel : Nat) (inp : List Byte) (pos : Nat)
    (acc : List JsonPathUnionEntry) :
    Except String (List JsonPathUnionEntry × Nat) :=
  match fuel with
  | 0 => .error "out of fuel"
  | fuel + 1 =>
    if pos < inp.length ∧ inp.getD pos 0 = 44 then do
      let (e, pos2) ← jpParseBracketEntry fuel inp (jpSkipWs inp (pos + 1))
      jpParseEntryList fuel inp (jpSkipWs inp pos2) (acc ++ [e])
    else .ok (acc, pos)
termination_by structural fuel

/-- `JsonPathParser::parseBracketEntry` (json.cpp:1900): a string
literal, `*`, a slice, a signed index, or an identifier. -/
def jpParseBracketEntry (fuel : Nat) (inp : List Byte) (pos : Nat) :
    Except String (JsonPathUnionEntry × Nat) :=
  match fuel with
  | 0 => .error "out of fuel"
  | fuel + 1 =>
    let pos1 := jpSkipWs inp pos
    if pos1 ≥ inp.length then .error "Unexpected end of bracket expression"
    else
      let c := inp.getD pos1 0
      if c = 39 ∨ c = 34 then do
        let (name, pos2) ← jpStringLit fuel inp pos1
        .ok ({ kind := .Name, name := name }, pos2)
      else if c = 42 then .ok ({ kind := .Wildcard }, pos1 + 1)
      else
        let r := jpParseSignedInteger inp pos1
        let hasNumber := r.isSome
        let number : Int := (r.map Prod.fst).getD 0
        let pos2 := (r.map Prod.snd).getD pos1
        let pos3 := jpSkipWs inp pos2
        if pos3 < inp.length ∧ inp.getD pos3 0 = 58 then do
          -- slice: start? ':' stop? (':' step)?
          let rEnd := jpParseSignedInteger inp (pos3 + 1)
          let hasEnd := rEnd.isSome
          let endv : Int := (rEnd.map Prod.fst).getD 0
          let pos4 := (rEnd.map Prod.snd).getD (pos3 + 1)
          let pos5 := jpSkipWs inp pos4
          if pos5 < inp.length ∧ inp.getD pos5 0 = 58 then
            match jpParseSignedInteger inp (pos5 + 1) with
            | none => .error "Slice step expects integer"
            | some (stepv, pos6) =>
              .ok ({ kind := .Slice,
                     slice := { hasStart := hasNumber, start := number,
                                hasEnd := hasEnd, stop := endv,
                                hasStep := true, step := stepv } }, pos6)
          else
            .ok ({ kind := .Slice,
                   slice := { hasStart := hasNumber, start := number,
                              hasEnd := hasEnd, stop := endv } }, pos5)
        else if hasNumber then .ok ({ kind := .Index, index := number }, pos2)
        else do
          let (name, pos4) ← jpParseIdentifier inp pos1
          .ok ({ kind := .Name, name := name }, pos4)
termination_by structural fuel

/-- `JsonPathParser::parseFilterExpression` (json.cpp:1965) /
`FilterExpressionParser::parse` (json.cpp:2170). -/
def jpParseFilterExpression (fuel : Nat) (inp : List Byte) :
    Except String FilterNode :=
  match fuel with
  | 0 => .error "out of fuel"
  | fuel + 1 => do
    let st0 ← feLex fuel inp 0
    let (node, st) ← feParseOr fuel inp st0
    if st.1.type = .End then .ok node
    else .error "Unexpected token at end of filter expression"
termination_by structural fuel

/-- `FilterExpressionParser::parseOr` (json.cpp:2179). -/
def feParseOr (fuel : Nat) (inp : List Byte) (st : FeState) :
    Except String (FilterNode × FeState) :=
  match fuel with
  | 0 => .error "out of fuel"
  | fuel + 1 => do
    let (node, st1) ← feParseAnd fuel inp st
    feParseOrLoop fuel inp node st1
termination_by structural fuel

def feParseOrLoop (fuel : Nat) (inp : List Byte) (node : FilterNode)
    (st : FeState) : Except String (FilterNode × FeState) :=
  match fuel with
  | 0 => .error "out of fuel"
  | fuel + 1 =>
    if st.1.type = .Or then do
      let st1 ← feLex fuel inp st.2
      let (rhs, st2) ← feParseAnd fuel inp st1
      feParseOrLoop fuel inp
        (.mk .Or "" nullOperand nullOperand nullOperand (some node) (some rhs)) st2
    else .ok (node, st)
termination_by structural fuel

/-- `FilterExpressionParser::parseAnd` (json.cpp:2195). -/
def feParseAnd (fuel : Nat) (inp : List Byte) (st : FeState) :
    Except String (FilterNode × FeState) :=
  match fuel with
  | 0 => .error "out of fuel"
  | fuel + 1 => do
    let (node, st1) ← feParseNot fuel inp st
    feParseAndLoop fuel inp node st1
termination_by structural fuel

def feParseAndLoop (fuel : Nat) (inp : List Byte) (node : FilterNode)
    (st : FeState) : Except String (FilterNode × FeState) :=
  match fuel with
  | 0 => .error "out of fuel"
  | fuel + 1 =>
    if st.1.type = .And then do
      let st1 ← feLex fuel inp st.2
      let (rhs, st2) ← feParseNot fuel inp st1
      feParseAndLoop fuel inp
        (.mk .And "" nullOperand nullOperand nullOperand (some node) (some rhs)) st2
    else .ok (node, st)
termination_by structural fuel

/-- `FilterExpressionParser::parseNot` (json.cpp:2211). -/
def feParseNot (fuel : Nat) (inp : List Byte) (st : FeState) :
    Except String (FilterNode × FeState) :=
  match fuel with
  | 0 => .error "out of fuel"
  | fuel + 1 =>
    if st.1.type = .Not then do
      let st1 ← feLex fuel inp st.2
      let (child, st2) ← feParseNot fuel inp st1
      .ok (.mk .Not "" nullOperand nullOperand nullOperand (some child) none, st2)
    else feParseComparison fuel inp st
termination_by structural fuel

/-- `FilterExpressionParser::parseComparison` (json.cpp:2225). -/
def feParseComparison (fuel : Nat) (inp : List Byte) (st : FeState) :
    Except String (FilterNode × FeState) :=
  match fuel with
  | 0 => .error "out of fuel"
  | fuel + 1 =>
    if st.1.type = .LParen then do
      let st1 ← feLex fuel inp st.2
      let (node, st2) ← feParseOr fuel inp st1
      if st2.1.type = .RParen then do
        let st3 ← feLex fuel inp st2.2
        .ok (node, st3)
      else .error "Expected rparen in filter expression"
    else do
      let (left, st1) ← feParseOperand fuel inp st
      let ty := st1.1.type
      if ty = .Eq ∨ ty = .Ne ∨ ty = .Lt ∨ ty = .Le ∨ ty = .Gt ∨ ty = .Ge ∨
          ty = .Regex then do
        let op : String :=
          if ty = .Eq then "==" else if ty = .Ne then "!="
          else if ty = .Lt then "<" else if ty = .Le then "<="
          else if ty = .Gt then ">" else if ty = .Ge then ">=" else "=~"
        let st2 ← feLex fuel inp st1.2
        let (right, st3) ← feParseOperand fuel inp st2
        .ok (.mk .Comparison op left right nullOperand none none, st3)
      else .ok (.mk .Exists "" nullOperand nullOperand left none none, st1)
termination_by structural fuel

/-- `FilterExpressionParser::parseOperand` (json.cpp:2255). -/
def feParseOperand (fuel : Nat) (inp : List Byte) (st : FeState) :
    Except String (FilterOperand × FeState) :=
  match fuel with
  | 0 => .error "out of fuel"
  | fuel + 1 =>
    match st.1.type with
    | .TrueLiteral => do
      let st1 ← feLex fuel inp st.2
      .ok (.mk .Literal (.bool true) (.mk false []) none, st1)
    | .FalseLiteral => do
      let st1 ← feLex fuel inp st.2
      .ok (.mk .Literal (.bool false) (.mk false []) none, st1)
    | .NullLiteral => do
      let st1 ← feLex fuel inp st.2
      .ok (.mk .Literal .null (.mk false []) none, st1)
    | .Number => do
      -- no `.`/`e`/`E` in the token: a Long via strtoll; otherwise a
      -- Double (the source stores the strtod of the text; here the
      -- double is the token itself)
      let lit : JsonVal :=
        if (st.1.text).all (fun c => c ≠ 46 ∧ c ≠ 101 ∧ c ≠ 69) then
          .long (strtollBytes st.1.text)
        else .double st.1.text
      let st1 ← feLex fuel inp st.2
      .ok (.mk .Literal lit (.mk false []) none, st1)
    | .String => do
      let st1 ← feLex fuel inp st.2
      .ok (.mk .Literal (.str st.1.text) (.mk false []) none, st1)
    | .Path => do
      let cp ← jpParseFull fuel st.1.text
      let st1 ← feLex fuel inp st.2
      .ok (.mk .Path .null cp none, st1)
    | .Identifier => do
      let name := st.1.text
      let st1 ← feLex fuel inp st.2
      if st1.1.type = .LParen then feParseFunctionCall fuel inp name st1
      else .error "Unexpected identifier in filter expression"
    | _ => .error "Unexpected token in filter operand"
termination_by structural fuel

/-- `FilterExpressionParser::parseFunctionCall` (json.cpp:2311):
`length`/`size` and `count`, case-insensitively. -/
def feParseFunctionCall (fuel : Nat) (inp : List Byte) (name : List Byte)
    (st : FeState) : Except String (FilterOperand × FeState) :=
  match fuel with
  | 0 => .error "out of fuel"
  | fuel + 1 => do
    let lowered := name.map tolowerB
    let fname ←
      if lowered = [108, 101, 110, 103, 116, 104] ∨
          lowered = [115, 105, 122, 101] then (pure FuncName.Length : Except String FuncName)
      else if lowered = [99, 111, 117, 110, 116] then pure FuncName.Count
      else .error "Unsupported function in filter expression"
    -- `st` is at the LParen; consume it
    let st1 ← feLex fuel inp st.2
    if st1.1.type = .RParen then do
      let st2 ← feLex fuel inp st1.2
      .ok (.mk .Function .null (.mk false []) (some (.mk fname [])), st2)
    else do
      let (arg, st2) ← feParseOperand fuel inp st1
      let (args, st3) ← feParseArgsLoop fuel inp [arg] st2
      if st3.1.type = .RParen then do
        let st4 ← feLex fuel inp st3.2
        .ok (.mk .Function .null (.mk false []) (some (.mk fname args)), st4)
      else .error "Expected rparen after function call"
termination_by structural fuel

def feParseArgsLoop (fuel : Nat) (inp : List Byte) (args : List FilterOperand)
    (st : FeState) : Except String (List FilterOperand × FeState) :=
  match fuel with
  | 0 => .error "out of fuel"
  | fuel + 1 =>
    if st.1.type = .Comma then do
      let st1 ← feLex fuel inp st.2
      let (arg, st2) ← feParseOperand fuel inp st1
      feParseArgsLoop fuel inp (args ++ [arg]) st2
    else .ok (args, st)
termination_by structural fuel

end

/-- Ample fuel for compiling a path expression. -/
def pathFuel (expr : List Byte) : Nat := 16 * expr.length + 64

/-! A size measure on values, for the evaluation fuel of the public
wrappers. -/

mutual

def jsize : JsonVal → Nat
  | .arr l => 1 + jsizeList l
  | .obj m => 1 + jsizeMembers m
  | _ => 1

def jsizeList : List JsonVal → Nat
  | [] => 0
  | v :: r => jsize v + jsizeList r

def jsizeMembers : List (List Byte × JsonVal) → Nat
  | [] => 0
  | (_, v) :: r => jsize v + jsizeMembers r

end

/-- `Json::jsonpath` (json.cpp:3132): compile the expression (the
thread-local compiled-path cache of json.cpp:1711 is semantically
transparent — `get` returns `parser.parse()` of the expression), reject
relative paths, and evaluate. -/
def jsonpathLocs (doc : JsonVal) (expr : List Byte) : Except String (List Loc) := do
  let compiled ← jpParseFull (pathFuel expr) expr
  if compiled.relative then .error "JSONPath expression must start with the root"
  else .ok (evaluatePath (pathFuel expr + jsize doc) doc doc compiled.steps)

/-- The evaluation phase of `Json::deleteJsonpath` (json.cpp:3546):
compile, reject relative paths, and evaluate with parent tracking. -/
def deleteJsonpathMatches (doc : JsonVal) (expr : List Byte) :
    Except String (List JsonPathNodeWithParent) := do
  let compiled ← jpParseFull (pathFuel expr) expr
  if compiled.relative then .error "JSONPath expression must start with the root"
  else .ok (evaluatePathWithParent (pathFuel expr + jsize doc) doc doc compiled.steps)

/-! ## Derived notions used by the statements below -/

/-- The parser's whitespace set: space, LF, CR, TAB (json.cpp:822). -/
def isWs (c : Byte) : Bool := decide (c = 32 ∨ c = 10 ∨ c = 13 ∨ c = 9)

def allWs (s : List Byte) : Bool := s.all isWs

/-! Container nesting depth of a value: scalars have depth 0, a container
is one deeper than its deepest child (an empty container has depth 1). -/

mutual

def jdepth : JsonVal → Nat
  | .arr l => 1 + jdepthList l
  | .obj m => 1 + jdepthMembers m
  | _ => 0

def jdepthList : List JsonVal → Nat
  | [] => 0
  | v :: r => max (jdepth v) (jdepthList r)

def jdepthMembers : List (List Byte × JsonVal) → Nat
  | [] => 0
  | (_, v) :: r => max (jdepth v) (jdepthMembers r)

end

/-- `n` opening brackets followed by `n` closing brackets: an `n`-level
nested array literal. -/
def nestedArrayBytes (n : Nat) : List Byte :=
  List.replicate n 91 ++ List.replicate n 93

/-! # Supporting lemmas -/

theorem keyLt_irrefl : ∀ k, keyLt k k = false := by
  intro k
  induction k with
  | nil => rfl
  | cons a as ih => simp [keyLt, ih]

theorem keyLt_asymm : ∀ a b, keyLt a b = true → keyLt b a = false := by
  intro a
  induction a with
  | nil => intro b _; cases b <;> rfl
  | cons x xs ih =>
    intro b hab
    cases b with
    | nil => simp [keyLt] at hab
    | cons y ys =>
      simp only [keyLt] at hab ⊢
      rcases Nat.lt_trichotomy x y with h | h | h
      · rw [if_neg (Nat.lt_asymm h), if_pos h]
      · subst h
        rw [if_neg (Nat.lt_irrefl x), if_neg (Nat.lt_irrefl x)] at hab ⊢
        exact ih ys hab
      · rw [if_neg (Nat.lt_asymm h), if_pos h] at hab
        cases hab

theorem keyLt_trans : ∀ a b c, keyLt a b = true → keyLt b c = true →
    keyLt a c = true := by
  intro a
  induction a with
  | nil =>
    intro b c hab hbc
    cases c with
    | nil => cases b <;> simp [keyLt] at hab hbc
    | cons z zs => rfl
  | cons x xs ih =>
    intro b c hab hbc
    cases b with
    | nil => simp [keyLt] at hab
    | cons y ys =>
      cases c with
      | nil => simp [keyLt] at hbc
      | cons z zs =>
        simp only [keyLt] at hab hbc ⊢
        rcases Nat.lt_trichotomy x y with h1 | h1 | h1
        · rcases Nat.lt_trichotomy y z with h2 | h2 | h2
          · rw [if_pos (Nat.lt_trans h1 h2)]
          · subst h2; rw [if_pos h1]
          · rw [if_neg (Nat.lt_asymm h2), if_pos h2] at hbc; cases hbc
        · subst h1
          rw [if_neg (Nat.lt_irrefl x), if_neg (Nat.lt_irrefl x)] at hab
          rcases Nat.lt_trichotomy x z with h2 | h2 | h2
          · rw [if_pos h2]
          · subst h2
            rw [if_neg (Nat.lt_irrefl x), if_neg (Nat.lt_irrefl x)] at hbc ⊢
            exact ih ys zs hab hbc
          · rw [if_neg (Nat.lt_asymm h2), if_pos h2] at hbc; cases hbc
        · rw [if_neg (Nat.lt_asymm h1), if_pos h1] at hab; cases hab

theorem sortedKeys_tail {k0 : List Byte} {v0 : JsonVal}
    {rest : List (List Byte × JsonVal)}
    (h : sortedKeys ((k0, v0) :: rest) = true) : sortedKeys rest = true := by
  cases rest with
  | nil => rfl
  | cons p ps =>
    obtain ⟨k1, v1⟩ := p
    simp only [sortedKeys, Bool.and_eq_true] at h
    exact h.2

theorem sorted_head_lt : ∀ (rest : List (List Byte × JsonVal)) (k0 : List Byte)
    (v0 : JsonVal), sortedKeys ((k0, v0) :: rest) = true →
    ∀ p ∈ rest, keyLt k0 p.1 = true := by
  intro rest
  induction rest with
  | nil => intro k0 v0 h p hp; cases hp
  | cons q qs ih =>
    obtain ⟨k1, v1⟩ := q
    intro k0 v0 h p hp
    simp only [sortedKeys, Bool.and_eq_true] at h
    rcases List.mem_cons.mp hp with h1 | h1
    · subst h1; exact h.1
    · exact keyLt_trans _ _ _ h.1 (ih k1 v1 h.2 p h1)

theorem mapFind_isSome_mem {m : List (List Byte × JsonVal)} {k : List Byte}
    (h : (mapFind m k).isSome) : ∃ v, (k, v) ∈ m := by
  induction m with
  | nil => simp [mapFind] at h
  | cons p ps ih =>
    obtain ⟨k0, v0⟩ := p
    by_cases hk : k0 = k
    · subst hk; exact ⟨v0, List.mem_cons_self _ _⟩
    · simp only [mapFind, if_neg hk] at h
      obtain ⟨v, hv⟩ := ih h
      exact ⟨v, List.mem_cons_of_mem _ hv⟩

theorem mapEmplace_mem_noop {m : List (List Byte × JsonVal)} {k : List Byte}
    (hs : sortedKeys m = true) (h : (mapFind m k).isSome) :
    ∀ v, mapEmplace m k v = m := by
  induction m with
  | nil => simp [mapFind] at h
  | cons p ps ih =>
    obtain ⟨k0, v0⟩ := p
    intro v
    by_cases hk : k = k0
    · subst hk
      simp [mapEmplace, keyLt_irrefl]
    · have hk0 : ¬ (k0 = k) := fun hh => hk hh.symm
      simp [mapFind, hk0] at h
      obtain ⟨w, hw⟩ := mapFind_isSome_mem h
      have hlt : keyLt k0 k = true := sorted_head_lt ps k0 v0 hs (k, w) hw
      simp [mapEmplace, keyLt_asymm _ _ hlt, hlt]
      exact ih (sortedKeys_tail hs) h v

/-! # Claim theorems -/

/-- C9: for every value that is not an object and every key, `contains`
returns false; it neither converts the value into an object, nor inserts
the key, nor treats the access as a fatal wrong-variant error. -/
theorem claim_C9 (v : JsonVal) (key : List Byte) (h : v.isObject = false) :
    contains v key = false := by
  cases v <;> first
  | rfl
  | simp [JsonVal.isObject] at h

theorem claim_C9_witness :
    (JsonVal.long 7).isObject = false ∧ contains (JsonVal.long 7) [97] = false :=
  ⟨rfl, claim_C9 (JsonVal.long 7) [97] rfl⟩

/-- C8: the filter comparison `l != r` is true iff the left node set is
non-empty and contains some node `l` equal to no node of the right node
set; in particular it is false whenever the left set is empty, and true
whenever the left set is non-empty and the right set is empty. -/
theorem claim_C8 : ∀ lhs rhs : List JsonVal,
    (FilterEvaluator.notEquals lhs rhs = true ↔
      lhs ≠ [] ∧ ∃ l ∈ lhs, ∀ r ∈ rhs, jsonEquals l r = false) ∧
    FilterEvaluator.notEquals [] rhs = false ∧
    (lhs ≠ [] → FilterEvaluator.notEquals lhs [] = true) := by
  intro lhs rhs
  refine ⟨?_, rfl, ?_⟩
  · unfold FilterEvaluator.notEquals
    rcases lhs with _ | ⟨l0, ls⟩
    · simp
    · rcases rhs with _ | ⟨r0, rs⟩
      · simpa using ⟨l0, by simp⟩
      · simp [List.any_eq_true, Bool.not_eq_true', List.any_eq_false]
  · intro hne
    rcases lhs with _ | ⟨l0, ls⟩
    · exact absurd rfl hne
    · rfl

theorem claim_C8_witness :
    (FilterEvaluator.notEquals [JsonVal.long 1] [JsonVal.long 2] = true ↔
      [JsonVal.long 1] ≠ [] ∧ ∃ l ∈ [JsonVal.long 1],
        ∀ r ∈ [JsonVal.long 2], jsonEquals l r = false) ∧
    FilterEvaluator.notEquals [] [JsonVal.long 2] = false ∧
    FilterEvaluator.notEquals [JsonVal.long 1] [] = true :=
  ⟨(claim_C8 [JsonVal.long 1] [JsonVal.long 2]).1,
   (claim_C8 [JsonVal.long 1] [JsonVal.long 2]).2.1,
   (claim_C8 [JsonVal.long 1] [JsonVal.long 2]).2.2 (by simp)⟩

/-- C7: parsing ` ["\uDFAA"] ` (a lone low surrogate escape) succeeds
with the six literal characters `\uDFAA` as the string payload, and
serializing the result yields exactly `["\\uDFAA"]`. -/
theorem claim_C7 :
    parseBytes [32, 91, 34, 92, 117, 68, 70, 65, 65, 34, 93, 32] =
      (.success, .arr [.str [92, 117, 68, 70, 65, 65]]) ∧
    toStringBytes (.arr [.str [92, 117, 68, 70, 65, 65]]) =
      [91, 34, 92, 92, 117, 68, 70, 65, 65, 34, 93] :=
  ⟨rfl, rfl⟩

/-- C6: parsing an object literal with a repeated key keeps the value of
the first occurrence: `std::map::emplace` never changes the mapped value
of a key that is already present (stated for every map satisfying the
`std::map` sortedness invariant, which every parser-built map has), and
the end-to-end parse of `{"a":1,"a":2}` succeeds with `a` bound to 1. -/
theorem claim_C6 :
    (∀ m k v, sortedKeys m = true → (mapFind m k).isSome →
      mapEmplace m k v = m) ∧
    parseBytes [123, 34, 97, 34, 58, 49, 44, 34, 97, 34, 58, 50, 125] =
      (.success, .obj [([97], .long 1)]) :=
  ⟨fun m k v hs h => mapEmplace_mem_noop hs h v, rfl⟩

theorem claim_C6_witness :
    mapEmplace [([97], JsonVal.long 1)] [97] (JsonVal.long 2) =
      [([97], JsonVal.long 1)] :=
  claim_C6.1 [([97], JsonVal.long 1)] [97] (JsonVal.long 2) rfl rfl

/-- C10: a raw DEL byte (0x7F) inside a string literal is ordinary ASCII —
the scanner appends it literally and continues — while every C0 control
byte (0x00..0x1F), and only those, is classified `C0` and rejected with
`non_del_c0_control_code_in_string`; end to end, `"␡"` parses to the
one-byte payload 0x7F. -/
theorem claim_C10 :
    (∀ b rest fuel, jparseStr (fuel + 1) (127 :: rest) b =
      jparseStr fuel rest (b ++ [127])) ∧
    (∀ c, c < 32 → ∀ b rest fuel, jparseStr (fuel + 1) (c :: rest) b =
      (.non_del_c0_control_code_in_string, .null, rest)) ∧
    (∀ c, c < 256 → (jsonStrClass c = 1 ↔ c < 32)) ∧
    parseBytes [34, 127, 34] = (.success, .str [127]) := by
  refine ⟨fun b rest fuel => rfl, ?_, by decide, rfl⟩
  intro c hc b rest fuel
  interval_cases c <;> rfl

theorem claim_C10_witness :
    jparseStr 5 (127 :: [34]) [] = jparseStr 4 [34] [127] ∧
    jparseStr 5 (9 :: []) [] =
      (.non_del_c0_control_code_in_string, .null, []) ∧
    (jsonStrClass 31 = 1 ↔ 31 < 32) :=
  ⟨claim_C10.1 [] [34] 4, claim_C10.2.1 9 (by decide) [] [] 4,
   claim_C10.2.2.1 31 (by decide)⟩

/-- C2 counterexample: on empty input the public `parse` returns
`absent_value` itself — the sentinel escapes — not `unexpected_eof` (the
code's own test expects `absent_value` for `""`, json_test.cpp:466). -/
theorem claim_C2_counterexample :
    (parseBytes []).1 = Status.absent_value ∧
      Status.absent_value ≠ Status.unexpected_eof :=
  ⟨rfl, by decide⟩

theorem jparse_allWs_absent : ∀ fuel p a d ctx, allWs p = true →
    p.length < fuel → jparse fuel p a d ctx DEPTH = (.absent_value, .null, []) := by
  intro fuel
  induction fuel with
  | zero => intro p a d ctx _ hl; omega
  | succ fuel ih =>
    intro p a d ctx hws hl
    cases p with
    | nil => rfl
    | cons c rest =>
      simp only [allWs, List.all_cons, Bool.and_eq_true] at hws
      have hcond : c = 32 ∨ c = 10 ∨ c = 13 ∨ c = 9 := by
        simpa [isWs] using hws.1
      rw [jparse.eq_def]
      dsimp only
      rw [if_neg (by decide : ¬ (DEPTH = 0)), if_pos hcond]
      exact ih rest rest d ctx hws.2 (by simpa using Nat.lt_of_succ_lt_succ hl)

/-- C2 amended: for every input in which no top-level value is found
(empty input or whitespace only), the public `parse` returns
`absent_value` — the internal sentinel does escape to the caller; it is
not elevated to `unexpected_eof`. -/
theorem claim_C2_amended : ∀ s, allWs s = true →
    (parseBytes s).1 = Status.absent_value := by
  intro s h
  unfold parseBytes
  rw [jparse_allWs_absent (bigFuel s) s s 1 0 h (by unfold bigFuel; omega)]

theorem claim_C2_amended_witness : (parseBytes [32, 9]).1 = Status.absent_value :=
  claim_C2_amended [32, 9] rfl

theorem useDubble_ne_absent (a : List Byte) : ∀ v r,
    useDubble a ≠ (Status.absent_value, v, r) := by
  intro v r h
  unfold useDubble at h
  dsimp only at h
  repeat' split at h
  all_goals
    injection h with h1 h2
    exact Status.noConfusion h1

theorem jparseInt_ne_absent : ∀ fuel p a x d v r,
    jparseInt fuel p a x d ≠ (Status.absent_value, v, r) := by
  intro fuel
  induction fuel with
  | zero =>
    intro p a x d v r h
    injection h with h1 h2
    exact Status.noConfusion h1
  | succ fuel ih =>
    intro p a x d v r h
    rw [jparseInt.eq_def] at h
    dsimp only at h
    rcases p with _ | ⟨c, rest⟩ <;> dsimp only at h
    · injection h with h1 h2
      exact Status.noConfusion h1
    · repeat' split at h
      all_goals
        first
        | exact ih _ _ _ _ _ _ h
        | exact useDubble_ne_absent _ _ _ h
        | (injection h with h1 h2; exact Status.noConfusion h1)

theorem jparseStrFamily_ne_absent : ∀ fuel,
    (∀ p b v r, jparseStr fuel p b ≠ (Status.absent_value, v, r)) ∧
    (∀ c rest b v r, jparseStrU2 fuel c rest b ≠ (Status.absent_value, v, r)) ∧
    (∀ c rest b v r, jparseStrE0 fuel c rest b ≠ (Status.absent_value, v, r)) ∧
    (∀ c rest b v r, jparseStr3 fuel c rest b ≠ (Status.absent_value, v, r)) ∧
    (∀ c rest b v r, jparseStrED fuel c rest b ≠ (Status.absent_value, v, r)) ∧
    (∀ c rest b v r, jparseStrF0 fuel c rest b ≠ (Status.absent_value, v, r)) ∧
    (∀ c rest b v r, jparseStr4 fuel c rest b ≠ (Status.absent_value, v, r)) ∧
    (∀ p b v r, jparseEsc fuel p b ≠ (Status.absent_value, v, r)) ∧
    (∀ rest b v r, jparseEscX fuel rest b ≠ (Status.absent_value, v, r)) ∧
    (∀ rest b v r, jparseEscU fuel rest b ≠ (Status.absent_value, v, r)) := by
  intro fuel
  induction fuel with
  | zero =>
    refine ⟨?_, ?_, ?_, ?_, ?_, ?_, ?_, ?_, ?_, ?_⟩ <;>
      intro _ _ _ _ <;>
      first
      | (intro h; injection h with h1 h2; exact Status.noConfusion h1)
      | (intro _ h; injection h with h1 h2; exact Status.noConfusion h1)
  | succ fuel ih =>
    obtain ⟨ihS, ihU2, ihE0, ih3, ihED, ihF0, ih4, ihE, ihX, ihU⟩ := ih
    refine ⟨?_, ?_, ?_, ?_, ?_, ?_, ?_, ?_, ?_, ?_⟩
    · intro p b v r h
      rw [jparseStr.eq_def] at h
      dsimp only at h
      rcases p with _ | ⟨c, rest⟩ <;> dsimp only at h
      · injection h with h1 h2
        exact Status.noConfusion h1
      · by_cases hc0 : jsonStrClass c = 0
        · rw [if_pos hc0] at h; exact ihS _ _ _ _ h
        rw [if_neg hc0] at h
        by_cases hc2 : jsonStrClass c = 2
        · rw [if_pos hc2] at h
          injection h with h1 h2
          exact Status.noConfusion h1
        rw [if_neg hc2] at h
        by_cases hc3 : jsonStrClass c = 3
        · rw [if_pos hc3] at h; exact ihE _ _ _ _ h
        rw [if_neg hc3] at h
        by_cases hc4 : jsonStrClass c = 4
        · rw [if_pos hc4] at h; exact ihU2 _ _ _ _ _ h
        rw [if_neg hc4] at h
        by_cases hc8 : jsonStrClass c = 8
        · rw [if_pos hc8] at h; exact ihE0 _ _ _ _ _ h
        rw [if_neg hc8] at h
        by_cases hc5 : jsonStrClass c = 5
        · rw [if_pos hc5] at h; exact ih3 _ _ _ _ _ h
        rw [if_neg hc5] at h
        by_cases hc9 : jsonStrClass c = 9
        · rw [if_pos hc9] at h; exact ihED _ _ _ _ _ h
        rw [if_neg hc9] at h
        by_cases hc10 : jsonStrClass c = 10
        · rw [if_pos hc10] at h; exact ihF0 _ _ _ _ _ h
        rw [if_neg hc10] at h
        by_cases hc6 : jsonStrClass c = 6
        · rw [if_pos hc6] at h; exact ih4 _ _ _ _ _ h
        rw [if_neg hc6] at h
        by_cases hc12 : jsonStrClass c = 12
        · rw [if_pos hc12] at h
          repeat' split at h
          all_goals
            injection h with h1 h2
            exact Status.noConfusion h1
        rw [if_neg hc12] at h
        by_cases hc11 : jsonStrClass c = 11
        · rw [if_pos hc11] at h
          injection h with h1 h2
          exact Status.noConfusion h1
        rw [if_neg hc11] at h
        by_cases hc1 : jsonStrClass c = 1
        · rw [if_pos hc1] at h
          injection h with h1 h2
          exact Status.noConfusion h1
        rw [if_neg hc1] at h
        by_cases hc7 : jsonStrClass c = 7
        · rw [if_pos hc7] at h
          injection h with h1 h2
          exact Status.noConfusion h1
        rw [if_neg hc7] at h
        injection h with h1 h2
        exact Status.noConfusion h1
    · intro c rest b v r h
      rw [jparseStrU2.eq_def] at h
      dsimp only at h
      repeat' split at h
      all_goals
        first
        | exact ihS _ _ _ _ h
        | (injection h with h1 h2; exact Status.noConfusion h1)
    · intro c rest b v r h
      rw [jparseStrE0.eq_def] at h
      dsimp only at h
      repeat' split at h
      all_goals
        first
        | exact ih3 _ _ _ _ _ h
        | (injection h with h1 h2; exact Status.noConfusion h1)
    · intro c rest b v r h
      rw [jparseStr3.eq_def] at h
      dsimp only at h
      repeat' split at h
      all_goals
        first
        | exact ihS _ _ _ _ h
        | (injection h with h1 h2; exact Status.noConfusion h1)
    · intro c rest b v r h
      rw [jparseStrED.eq_def] at h
      dsimp only at h
      repeat' split at h
      all_goals
        first
        | exact ihS _ _ _ _ h
        | exact ih3 _ _ _ _ _ h
        | (injection h with h1 h2; exact Status.noConfusion h1)
    · intro c rest b v r h
      rw [jparseStrF0.eq_def] at h
      dsimp only at h
      repeat' split at h
      all_goals
        first
        | exact ih4 _ _ _ _ _ h
        | (injection h with h1 h2; exact Status.noConfusion h1)
    · intro c rest b v r h
      rw [jparseStr4.eq_def] at h
      dsimp only at h
      repeat' split at h
      all_goals
        first
        | exact ihS _ _ _ _ h
        | (injection h with h1 h2; exact Status.noConfusion h1)
    · intro p b v r h
      rw [jparseEsc.eq_def] at h
      dsimp only at h
      rcases p with _ | ⟨c, rest⟩ <;> dsimp only at h
      · injection h with h1 h2
        exact Status.noConfusion h1
      · repeat' split at h
        all_goals
          first
          | exact ihS _ _ _ _ h
          | exact ihX _ _ _ _ h
          | exact ihU _ _ _ _ h
          | (injection h with h1 h2; exact Status.noConfusion h1)
    · intro rest b v r h
      rw [jparseEscX.eq_def] at h
      dsimp only at h
      repeat' split at h
      all_goals
        first
        | exact ihS _ _ _ _ h
        | (injection h with h1 h2; exact Status.noConfusion h1)
    · intro rest b v r h
      rw [jparseEscU.eq_def] at h
      dsimp only at h
      repeat' split at h
      all_goals
        first
        | exact ihS _ _ _ _ h
        | (injection h with h1 h2; exact Status.noConfusion h1)

theorem jparseArr_ne_absent : ∀ fuel p acc ctx depth v r,
    jparseArr fuel p acc ctx depth ≠ (Status.absent_value, v, r) := by
  intro fuel
  induction fuel with
  | zero =>
    intro p acc ctx depth v r h
    injection h with h1 h2
    exact Status.noConfusion h1
  | succ fuel ih =>
    intro p acc ctx depth v r h
    rw [jparseArr.eq_def] at h
    dsimp only at h
    split at h
    · injection h with h1 h2
      exact Status.noConfusion h1
    · exact ih _ _ _ _ _ _ h
    · rename_i hne1 hne2 heq
      injection h with hA hB
      exact hne1 hA

theorem jparseObj_ne_absent : ∀ fuel p acc ctx depth v r,
    jparseObj fuel p acc ctx depth ≠ (Status.absent_value, v, r) := by
  intro fuel
  induction fuel with
  | zero =>
    intro p acc ctx depth v r h
    injection h with h1 h2
    exact Status.noConfusion h1
  | succ fuel ih =>
    intro p acc ctx depth v r h
    rw [jparseObj.eq_def] at h
    dsimp only at h
    split at h
    · injection h with h1 h2
      exact Status.noConfusion h1
    · split at h
      · split at h
        · injection h with h1 h2
          exact Status.noConfusion h1
        · exact ih _ _ _ _ _ _ h
        · rename_i hne1 hne2 heq
          injection h with hA hB
          exact hne1 hA
      · injection h with h1 h2
        exact Status.noConfusion h1
    · rename_i hne1 hne2 heq
      injection h with hA hB
      exact hne1 hA

theorem allWs_cons (c : Byte) (rest : List Byte) :
    allWs (c :: rest) = (isWs c && allWs rest) := rfl

theorem jparse_absent_allWs : ∀ fuel p a d depth v r,
    jparse fuel p a d 0 depth = (Status.absent_value, v, r) →
    allWs p = true := by
  intro fuel
  induction fuel with
  | zero =>
    intro p a d depth v r h
    injection h with h1 h2
    exact Status.noConfusion h1
  | succ fuel ih =>
    intro p a d depth v r h
    rw [jparse.eq_def] at h
    dsimp only at h
    by_cases hd : depth = 0
    · rw [if_pos hd] at h
      injection h with h1 h2
      exact Status.noConfusion h1
    rw [if_neg hd] at h
    cases p with
    | nil => rfl
    | cons c rest =>
      dsimp only at h
      by_cases hws : c = 32 ∨ c = 10 ∨ c = 13 ∨ c = 9
      · rw [if_pos hws] at h
        have hall := ih rest rest d depth v r h
        rw [allWs_cons, hall, Bool.and_true]
        simp only [isWs, decide_eq_true_eq]
        exact hws
      rw [if_neg hws] at h
      by_cases h44 : c = 44
      · rw [if_pos h44, if_neg (by decide : ¬ ((0 : Nat) &&& COMMA ≠ 0))] at h
        injection h with h1 h2
        exact Status.noConfusion h1
      rw [if_neg h44] at h
      by_cases h58 : c = 58
      · rw [if_pos h58, if_neg (by decide : ¬ ((0 : Nat) &&& COLON ≠ 0))] at h
        injection h with h1 h2
        exact Status.noConfusion h1
      rw [if_neg h58] at h
      by_cases h110 : c = 110
      · rw [if_pos h110,
          if_neg (by decide : ¬ ((0 : Nat) &&& (KEY ||| COLON ||| COMMA) ≠ 0))] at h
        repeat' split at h
        all_goals
          injection h with h1 h2
          exact Status.noConfusion h1
      rw [if_neg h110] at h
      by_cases h102 : c = 102
      · rw [if_pos h102,
          if_neg (by decide : ¬ ((0 : Nat) &&& (KEY ||| COLON ||| COMMA) ≠ 0))] at h
        repeat' split at h
        all_goals
          injection h with h1 h2
          exact Status.noConfusion h1
      rw [if_neg h102] at h
      by_cases h116 : c = 116
      · rw [if_pos h116,
          if_neg (by decide : ¬ ((0 : Nat) &&& (KEY ||| COLON ||| COMMA) ≠ 0))] at h
        repeat' split at h
        all_goals
          injection h with h1 h2
          exact Status.noConfusion h1
      rw [if_neg h116] at h
      by_cases h45 : c = 45
      · rw [if_pos h45,
          if_neg (by decide : ¬ ((0 : Nat) &&& (COLON ||| COMMA ||| KEY) ≠ 0))] at h
        cases rest with
        | nil =>
          injection h with h1 h2
          exact Status.noConfusion h1
        | cons c2 rest2 =>
          dsimp only at h
          by_cases hdg : isDigit c2 = true
          · rw [if_pos hdg] at h
            have hall := ih _ _ _ _ _ _ h
            rw [allWs_cons, Bool.and_eq_true] at hall
            have hw := hall.1
            simp only [isWs, decide_eq_true_eq] at hw
            exfalso
            rcases hw with hE | hE | hE | hE <;> rw [hE] at hdg <;>
              exact absurd hdg (by decide)
          · rw [if_neg hdg] at h
            injection h with h1 h2
            exact Status.noConfusion h1
      rw [if_neg h45] at h
      by_cases h48 : c = 48
      · rw [if_pos h48,
          if_neg (by decide : ¬ ((0 : Nat) &&& (COLON ||| COMMA ||| KEY) ≠ 0))] at h
        repeat' split at h
        all_goals
          first
          | exact absurd h (useDubble_ne_absent _ _ _)
          | (injection h with h1 h2; exact Status.noConfusion h1)
      rw [if_neg h48] at h
      by_cases hdig : isDigit c = true
      · rw [if_pos hdig,
          if_neg (by decide : ¬ ((0 : Nat) &&& (COLON ||| COMMA ||| KEY) ≠ 0))] at h
        exact absurd h (jparseInt_ne_absent _ _ _ _ _ _ _)
      rw [if_neg hdig] at h
      by_cases h91 : c = 91
      · rw [if_pos h91,
          if_neg (by decide : ¬ ((0 : Nat) &&& (COLON ||| COMMA ||| KEY) ≠ 0))] at h
        exact absurd h (jparseArr_ne_absent _ _ _ _ _ _ _)
      rw [if_neg h91] at h
      by_cases h93 : c = 93
      · rw [if_pos h93, if_neg (by decide : ¬ ((0 : Nat) &&& ARRAY ≠ 0))] at h
        injection h with h1 h2
        exact Status.noConfusion h1
      rw [if_neg h93] at h
      by_cases h125 : c = 125
      · rw [if_pos h125, if_neg (by decide : ¬ ((0 : Nat) &&& OBJECT ≠ 0))] at h
        injection h with h1 h2
        exact Status.noConfusion h1
      rw [if_neg h125] at h
      by_cases h123 : c = 123
      · rw [if_pos h123,
          if_neg (by decide : ¬ ((0 : Nat) &&& (COLON ||| COMMA ||| KEY) ≠ 0))] at h
        exact absurd h (jparseObj_ne_absent _ _ _ _ _ _ _)
      rw [if_neg h123] at h
      by_cases h34 : c = 34
      · rw [if_pos h34, if_neg (by decide : ¬ ((0 : Nat) &&& (COLON ||| COMMA) ≠ 0))] at h
        exact absurd h ((jparseStrFamily_ne_absent fuel).1 _ _ _ _)
      rw [if_neg h34] at h
      injection h with h1 h2
      exact Status.noConfusion h1

/-- C5: whenever the first top-level parse succeeds leaving `rest`, the
public `parse` (json.cpp:1264) returns `success` exactly when `rest` is
all whitespace (space, LF, CR, TAB) and `trailing_content` otherwise; the
parsed value is returned either way. -/
theorem claim_C5 : ∀ s v rest,
    jparse (bigFuel s) s s 1 0 DEPTH = (Status.success, v, rest) →
    (allWs rest = true → parseBytes s = (Status.trailing_content, v) → False) ∧
    (allWs rest = true → parseBytes s = (Status.success, v)) ∧
    (allWs rest = false → parseBytes s = (Status.trailing_content, v)) := by
  intro s v rest h
  have hsucc : ∀ hws : allWs rest = true, parseBytes s = (Status.success, v) := by
    intro hws
    unfold parseBytes
    rw [h]
    dsimp only
    rw [jparse_allWs_absent (bigFuel rest) rest rest 1 0 hws
      (by unfold bigFuel; omega)]
    dsimp only
    rw [if_neg (by simp)]
  refine ⟨?_, hsucc, ?_⟩
  · intro hws hcontra
    rw [hsucc hws] at hcontra
    injection hcontra with h1 h2
    exact Status.noConfusion h1
  · intro hws
    unfold parseBytes
    rw [h]
    dsimp only
    rcases h2 : jparse (bigFuel rest) rest rest 1 0 DEPTH with ⟨st2, v2, r2⟩
    dsimp only
    have hne : st2 ≠ Status.absent_value := by
      intro habs
      rw [habs] at h2
      rw [jparse_absent_allWs (bigFuel rest) rest rest 1 DEPTH v2 r2 h2] at hws
      exact Bool.noConfusion hws
    rw [if_pos hne]

theorem claim_C5_witness :
    jparse (bigFuel [49, 32, 120]) [49, 32, 120] [49, 32, 120] 1 0 DEPTH =
      (Status.success, JsonVal.long 1, [32, 120]) ∧
    allWs [32, 120] = false ∧
    parseBytes [49, 32, 120] = (Status.trailing_content, JsonVal.long 1) ∧
    jparse (bigFuel [49, 32]) [49, 32] [49, 32] 1 0 DEPTH =
      (Status.success, JsonVal.long 1, [32]) ∧
    parseBytes [49, 32] = (Status.success, JsonVal.long 1) :=
  ⟨rfl, rfl,
   (claim_C5 [49, 32, 120] (JsonVal.long 1) [32, 120] rfl).2.2 rfl,
   rfl,
   (claim_C5 [49, 32] (JsonVal.long 1) [32] rfl).2.1 rfl⟩

theorem onColonCommaKey_ne_success (ctx : Nat) (p : List Byte) : ∀ v r,
    onColonCommaKey ctx p ≠ (Status.success, v, r) := by
  intro v r h
  unfold onColonCommaKey at h
  repeat' split at h
  all_goals
    injection h with h1 h2
    exact Status.noConfusion h1

theorem onColonComma_ne_success (ctx : Nat) (p : List Byte) : ∀ v r,
    onColonComma ctx p ≠ (Status.success, v, r) := by
  intro v r h
  unfold onColonComma at h
  repeat' split at h
  all_goals
    injection h with h1 h2
    exact Status.noConfusion h1

theorem useDubble_depth0 (a : List Byte) : ∀ st v r,
    useDubble a = (st, v, r) → jdepth v = 0 := by
  intro st v r h
  unfold useDubble at h
  dsimp only at h
  repeat' split at h
  all_goals
    injection h with h1 h2
    injection h2 with hv hr
    rw [← hv]
    rfl

theorem jparseInt_depth0 : ∀ fuel p a x d st v r,
    jparseInt fuel p a x d = (st, v, r) → jdepth v = 0 := by
  intro fuel
  induction fuel with
  | zero =>
    intro p a x d st v r h
    injection h with h1 h2
    injection h2 with hv hr
    rw [← hv]
    rfl
  | succ fuel ih =>
    intro p a x d st v r h
    rw [jparseInt.eq_def] at h
    dsimp only at h
    rcases p with _ | ⟨c, rest⟩ <;> dsimp only at h
    · injection h with h1 h2
      injection h2 with hv hr
      rw [← hv]
      rfl
    · repeat' split at h
      all_goals
        first
        | exact ih _ _ _ _ _ _ _ h
        | exact useDubble_depth0 _ _ _ _ h
        | (injection h with h1 h2; injection h2 with hv hr; rw [← hv]; rfl)

theorem jparseStrFamily_depth0 : ∀ fuel,
    (∀ p b st v r, jparseStr fuel p b = (st, v, r) → jdepth v = 0) ∧
    (∀ c rest b st v r, jparseStrU2 fuel c rest b = (st, v, r) → jdepth v = 0) ∧
    (∀ c rest b st v r, jparseStrE0 fuel c rest b = (st, v, r) → jdepth v = 0) ∧
    (∀ c rest b st v r, jparseStr3 fuel c rest b = (st, v, r) → jdepth v = 0) ∧
    (∀ c rest b st v r, jparseStrED fuel c rest b = (st, v, r) → jdepth v = 0) ∧
    (∀ c rest b st v r, jparseStrF0 fuel c rest b = (st, v, r) → jdepth v = 0) ∧
    (∀ c rest b st v r, jparseStr4 fuel c rest b = (st, v, r) → jdepth v = 0) ∧
    (∀ p b st v r, jparseEsc fuel p b = (st, v, r) → jdepth v = 0) ∧
    (∀ rest b st v r, jparseEscX fuel rest b = (st, v, r) → jdepth v = 0) ∧
    (∀ rest b st v r, jparseEscU fuel rest b = (st, v, r) → jdepth v = 0) := by
  intro fuel
  induction fuel with
  | zero =>
    refine ⟨?_, ?_, ?_, ?_, ?_, ?_, ?_, ?_, ?_, ?_⟩ <;>
      intro _ _ _ _ _ <;>
      first
      | (intro h; injection h with h1 h2; injection h2 with hv hr; rw [← hv]; rfl)
      | (intro _ h; injection h with h1 h2; injection h2 with hv hr; rw [← hv]; rfl)
  | succ fuel ih =>
    obtain ⟨ihS, ihU2, ihE0, ih3, ihED, ihF0, ih4, ihE, ihX, ihU⟩ := ih
    refine ⟨?_, ?_, ?_, ?_, ?_, ?_, ?_, ?_, ?_, ?_⟩
    · intro p b st v r h
      rw [jparseStr.eq_def] at h
      dsimp only at h
      rcases p with _ | ⟨c, rest⟩ <;> dsimp only at h
      · injection h with h1 h2
        injection h2 with hv hr
        rw [← hv]
        rfl
      · by_cases hc0 : jsonStrClass c = 0
        · rw [if_pos hc0] at h; exact ihS _ _ _ _ _ h
        rw [if_neg hc0] at h
        by_cases hc2 : jsonStrClass c = 2
        · rw [if_pos hc2] at h
          injection h with h1 h2
          injection h2 with hv hr
          rw [← hv]
          rfl
        rw [if_neg hc2] at h
        by_cases hc3 : jsonStrClass c = 3
        · rw [if_pos hc3] at h; exact ihE _ _ _ _ _ h
        rw [if_neg hc3] at h
        by_cases hc4 : jsonStrClass c = 4
        · rw [if_pos hc4] at h; exact ihU2 _ _ _ _ _ _ h
        rw [if_neg hc4] at h
        by_cases hc8 : jsonStrClass c = 8
        · rw [if_pos hc8] at h; exact ihE0 _ _ _ _ _ _ h
        rw [if_neg hc8] at h
        by_cases hc5 : jsonStrClass c = 5
        · rw [if_pos hc5] at h; exact ih3 _ _ _ _ _ _ h
        rw [if_neg hc5] at h
        by_cases hc9 : jsonStrClass c = 9
        · rw [if_pos hc9] at h; exact ihED _ _ _ _ _ _ h
        rw [if_neg hc9] at h
        by_cases hc10 : jsonStrClass c = 10
        · rw [if_pos hc10] at h; exact ihF0 _ _ _ _ _ _ h
        rw [if_neg hc10] at h
        by_cases hc6 : jsonStrClass c = 6
        · rw [if_pos hc6] at h; exact ih4 _ _ _ _ _ _ h
        rw [if_neg hc6] at h
        by_cases hc12 : jsonStrClass c = 12
        · rw [if_pos hc12] at h
          repeat' split at h
          all_goals
            injection h with h1 h2
            injection h2 with hv hr
            rw [← hv]
            rfl
        rw [if_neg hc12] at h
        by_cases hc11 : jsonStrClass c = 11
        · rw [if_pos hc11] at h
          injection h with h1 h2
          injection h2 with hv hr
          rw [← hv]
          rfl
        rw [if_neg hc11] at h
        by_cases hc1 : jsonStrClass c = 1
        · rw [if_pos hc1] at h
          injection h with h1 h2
          injection h2 with hv hr
          rw [← hv]
          rfl
        rw [if_neg hc1] at h
        by_cases hc7 : jsonStrClass c = 7
        · rw [if_pos hc7] at h
          injection h with h1 h2
          injection h2 with hv hr
          rw [← hv]
          rfl
        rw [if_neg hc7] at h
        injection h with h1 h2
        injection h2 with hv hr
        rw [← hv]
        rfl
    · intro c rest b st v r h
      rw [jparseStrU2.eq_def] at h
      dsimp only at h
      repeat' split at h
      all_goals
        first
        | exact ihS _ _ _ _ _ h
        | (injection h with h1 h2; injection h2 with hv hr; rw [← hv]; rfl)
    · intro c rest b st v r h
      rw [jparseStrE0.eq_def] at h
      dsimp only at h
      repeat' split at h
      all_goals
        first
        | exact ih3 _ _ _ _ _ _ h
        | (injection h with h1 h2; injection h2 with hv hr; rw [← hv]; rfl)
    · intro c rest b st v r h
      rw [jparseStr3.eq_def] at h
      dsimp only at h
      repeat' split at h
      all_goals
        first
        | exact ihS _ _ _ _ _ h
        | (injection h with h1 h2; injection h2 with hv hr; rw [← hv]; rfl)
    · intro c rest b st v r h
      rw [jparseStrED.eq_def] at h
      dsimp only at h
      repeat' split at h
      all_goals
        first
        | exact ihS _ _ _ _ _ h
        | exact ih3 _ _ _ _ _ _ h
        | (injection h with h1 h2; injection h2 with hv hr; rw [← hv]; rfl)
    · intro c rest b st v r h
      rw [jparseStrF0.eq_def] at h
      dsimp only at h
      repeat' split at h
      all_goals
        first
        | exact ih4 _ _ _ _ _ _ h
        | (injection h with h1 h2; injection h2 with hv hr; rw [← hv]; rfl)
    · intro c rest b st v r h
      rw [jparseStr4.eq_def] at h
      dsimp only at h
      repeat' split at h
      all_goals
        first
        | exact ihS _ _ _ _ _ h
        | (injection h with h1 h2; injection h2 with hv hr; rw [← hv]; rfl)
    · intro p b st v r h
      rw [jparseEsc.eq_def] at h
      dsimp only at h
      rcases p with _ | ⟨c, rest⟩ <;> dsimp only at h
      · injection h with h1 h2
        injection h2 with hv hr
        rw [← hv]
        rfl
      · repeat' split at h
        all_goals
          first
          | exact ihS _ _ _ _ _ h
          | exact ihX _ _ _ _ _ h
          | exact ihU _ _ _ _ _ h
          | (injection h with h1 h2; injection h2 with hv hr; rw [← hv]; rfl)
    · intro rest b st v r h
      rw [jparseEscX.eq_def] at h
      dsimp only at h
      repeat' split at h
      all_goals
        first
        | exact ihS _ _ _ _ _ h
        | (injection h with h1 h2; injection h2 with hv hr; rw [← hv]; rfl)
    · intro rest b st v r h
      rw [jparseEscU.eq_def] at h
      dsimp only at h
      repeat' split at h
      all_goals
        first
        | exact ihS _ _ _ _ _ h
        | (injection h with h1 h2; injection h2 with hv hr; rw [← hv]; rfl)

theorem jdepthList_append : ∀ (l : List JsonVal) (v : JsonVal),
    jdepthList (l ++ [v]) = max (jdepthList l) (jdepth v) := by
  intro l v
  induction l with
  | nil => simp [jdepthList]
  | cons x xs ih =>
    rw [List.cons_append]
    rw [show jdepthList (x :: (xs ++ [v])) = max (jdepth x) (jdepthList (xs ++ [v])) from rfl]
    rw [ih]
    rw [show jdepthList (x :: xs) = max (jdepth x) (jdepthList xs) from rfl]
    omega

theorem jdepthMembers_emplace :
    ∀ (m : List (List Byte × JsonVal)) (k : List Byte) (v : JsonVal),
    jdepthMembers (mapEmplace m k v) ≤ max (jdepthMembers m) (jdepth v) := by
  intro m k v
  induction m with
  | nil => simp [mapEmplace, jdepthMembers]
  | cons kv rest ih =>
    obtain ⟨k0, v0⟩ := kv
    rw [mapEmplace]
    by_cases h1 : keyLt k k0 = true
    · rw [if_pos h1]
      simp only [jdepthMembers]
      omega
    rw [if_neg h1]
    by_cases h2 : keyLt k0 k = true
    · rw [if_pos h2]
      simp only [jdepthMembers]
      omega
    · rw [if_neg h2]
      exact Nat.le_max_left _ _

theorem jparse_absent_depth_pos : ∀ fuel p a d ctx depth v r,
    jparse fuel p a d ctx depth = (Status.absent_value, v, r) → 1 ≤ depth := by
  intro fuel p a d ctx depth v r h
  cases fuel with
  | zero =>
    injection h with h1 h2
    exact Status.noConfusion h1
  | succ fuel =>
    rw [jparse.eq_def] at h
    dsimp only at h
    by_cases hd : depth = 0
    · rw [if_pos hd] at h
      injection h with h1 h2
      exact Status.noConfusion h1
    · omega

theorem jparse_depth : ∀ fuel,
    (∀ p a d ctx depth v r, jparse fuel p a d ctx depth = (Status.success, v, r) →
      jdepth v ≤ depth - 1) ∧
    (∀ p acc ctx depth v r, jparseArr fuel p acc ctx depth = (Status.success, v, r) →
      jdepthList acc ≤ depth - 2 → jdepth v ≤ depth - 1) ∧
    (∀ p acc ctx depth v r, jparseObj fuel p acc ctx depth = (Status.success, v, r) →
      jdepthMembers acc ≤ depth - 2 → jdepth v ≤ depth - 1) := by
  intro fuel
  induction fuel with
  | zero =>
    refine ⟨?_, ?_, ?_⟩ <;>
      intro p x1 x2 x3 x4 x5 <;>
      first
      | (intro x6 h; injection h with h1 h2; exact Status.noConfusion h1)
      | (intro h; injection h with h1 h2; exact Status.noConfusion h1)
      | (intro h h0; injection h with h1 h2; exact Status.noConfusion h1)
  | succ fuel ih =>
    obtain ⟨ihA, ihC, ihD⟩ := ih
    refine ⟨?_, ?_, ?_⟩
    · intro p a d ctx depth v r h
      rw [jparse.eq_def] at h
      dsimp only at h
      by_cases hd : depth = 0
      · rw [if_pos hd] at h
        injection h with h1 h2
        exact Status.noConfusion h1
      rw [if_neg hd] at h
      cases p with
      | nil =>
        injection h with h1 h2
        split at h1 <;> exact Status.noConfusion h1
      | cons c rest =>
        dsimp only at h
        by_cases hws : c = 32 ∨ c = 10 ∨ c = 13 ∨ c = 9
        · rw [if_pos hws] at h
          exact ihA _ _ _ _ _ _ _ h
        rw [if_neg hws] at h
        by_cases h44 : c = 44
        · rw [if_pos h44] at h
          by_cases hcm : ctx &&& COMMA ≠ 0
          · rw [if_pos hcm] at h
            exact ihA _ _ _ _ _ _ _ h
          · rw [if_neg hcm] at h
            injection h with h1 h2
            exact Status.noConfusion h1
        rw [if_neg h44] at h
        by_cases h58 : c = 58
        · rw [if_pos h58] at h
          by_cases hcl : ctx &&& COLON ≠ 0
          · rw [if_pos hcl] at h
            exact ihA _ _ _ _ _ _ _ h
          · rw [if_neg hcl] at h
            injection h with h1 h2
            exact Status.noConfusion h1
        rw [if_neg h58] at h
        by_cases h110 : c = 110
        · rw [if_pos h110] at h
          by_cases hg : ctx &&& (KEY ||| COLON ||| COMMA) ≠ 0
          · rw [if_pos hg] at h
            exact absurd h (onColonCommaKey_ne_success _ _ _ _)
          · rw [if_neg hg] at h
            repeat' split at h
            all_goals
              injection h with h1 h2
              injection h2 with hv hr
              rw [← hv]
              exact Nat.zero_le _
        rw [if_neg h110] at h
        by_cases h102 : c = 102
        · rw [if_pos h102] at h
          by_cases hg : ctx &&& (KEY ||| COLON ||| COMMA) ≠ 0
          · rw [if_pos hg] at h
            exact absurd h (onColonCommaKey_ne_success _ _ _ _)
          · rw [if_neg hg] at h
            repeat' split at h
            all_goals
              injection h with h1 h2
              injection h2 with hv hr
              rw [← hv]
              exact Nat.zero_le _
        rw [if_neg h102] at h
        by_cases h116 : c = 116
        · rw [if_pos h116] at h
          by_cases hg : ctx &&& (KEY ||| COLON ||| COMMA) ≠ 0
          · rw [if_pos hg] at h
            exact absurd h (onColonCommaKey_ne_success _ _ _ _)
          · rw [if_neg hg] at h
            repeat' split at h
            all_goals
              injection h with h1 h2
              injection h2 with hv hr
              rw [← hv]
              exact Nat.zero_le _
        rw [if_neg h116] at h
        by_cases h45 : c = 45
        · rw [if_pos h45] at h
          by_cases hg : ctx &&& (COLON ||| COMMA ||| KEY) ≠ 0
          · rw [if_pos hg] at h
            exact absurd h (onColonCommaKey_ne_success _ _ _ _)
          · rw [if_neg hg] at h
            repeat' split at h
            all_goals
              first
              | exact ihA _ _ _ _ _ _ _ h
              | (injection h with h1 h2; injection h2 with hv hr; rw [← hv];
                 exact Nat.zero_le _)
        rw [if_neg h45] at h
        by_cases h48 : c = 48
        · rw [if_pos h48] at h
          by_cases hg : ctx &&& (COLON ||| COMMA ||| KEY) ≠ 0
          · rw [if_pos hg] at h
            exact absurd h (onColonCommaKey_ne_success _ _ _ _)
          · rw [if_neg hg] at h
            repeat' split at h
            all_goals
              first
              | (rw [useDubble_depth0 _ _ _ _ h]; exact Nat.zero_le _)
              | (injection h with h1 h2; injection h2 with hv hr; rw [← hv];
                 exact Nat.zero_le _)
        rw [if_neg h48] at h
        by_cases hdg : isDigit c = true
        · rw [if_pos hdg] at h
          by_cases hg : ctx &&& (COLON ||| COMMA ||| KEY) ≠ 0
          · rw [if_pos hg] at h
            exact absurd h (onColonCommaKey_ne_success _ _ _ _)
          · rw [if_neg hg] at h
            rw [jparseInt_depth0 _ _ _ _ _ _ _ _ h]
            exact Nat.zero_le _
        rw [if_neg hdg] at h
        by_cases h91 : c = 91
        · rw [if_pos h91] at h
          by_cases hg : ctx &&& (COLON ||| COMMA ||| KEY) ≠ 0
          · rw [if_pos hg] at h
            exact absurd h (onColonCommaKey_ne_success _ _ _ _)
          · rw [if_neg hg] at h
            exact ihC _ _ _ _ _ _ h (Nat.zero_le _)
        rw [if_neg h91] at h
        by_cases h93 : c = 93
        · rw [if_pos h93] at h
          split at h <;> (injection h with h1 h2; exact Status.noConfusion h1)
        rw [if_neg h93] at h
        by_cases h125 : c = 125
        · rw [if_pos h125] at h
          split at h <;> (injection h with h1 h2; exact Status.noConfusion h1)
        rw [if_neg h125] at h
        by_cases h123 : c = 123
        · rw [if_pos h123] at h
          by_cases hg : ctx &&& (COLON ||| COMMA ||| KEY) ≠ 0
          · rw [if_pos hg] at h
            exact absurd h (onColonCommaKey_ne_success _ _ _ _)
          · rw [if_neg hg] at h
            exact ihD _ _ _ _ _ _ h (Nat.zero_le _)
        rw [if_neg h123] at h
        by_cases h34 : c = 34
        · rw [if_pos h34] at h
          by_cases hg : ctx &&& (COLON ||| COMMA) ≠ 0
          · rw [if_pos hg] at h
            exact absurd h (onColonComma_ne_success _ _ _ _)
          · rw [if_neg hg] at h
            rw [(jparseStrFamily_depth0 fuel).1 _ _ _ _ _ h]
            exact Nat.zero_le _
        rw [if_neg h34] at h
        injection h with h1 h2
        injection h2 with hv hr
        rw [← hv]
        exact Nat.zero_le _
    · intro p acc ctx depth v r h hacc
      rw [jparseArr.eq_def] at h
      dsimp only at h
      rcases hc : jparse fuel p p 1 ctx (depth - 1) with ⟨stc, vc, restc⟩
      rw [hc] at h
      cases stc
      case absent_value =>
        dsimp only at h
        injection h with h1 h2
        injection h2 with hv hr
        have hdp := jparse_absent_depth_pos fuel p p 1 ctx (depth - 1) vc restc hc
        rw [← hv]
        rw [show jdepth (JsonVal.arr acc) = 1 + jdepthList acc from rfl]
        omega
      case success =>
        dsimp only at h
        have hvc := ihA _ _ _ _ _ _ _ hc
        refine ihC _ _ _ _ _ _ h ?_
        rw [jdepthList_append]
        omega
      all_goals
        dsimp only at h
        injection h with h1 h2
        exact Status.noConfusion h1
    · intro p acc ctx depth v r h hacc
      rw [jparseObj.eq_def] at h
      dsimp only at h
      rcases hk : jparse fuel p p 1 ctx (depth - 1) with ⟨stk, vk, restk⟩
      rw [hk] at h
      cases stk
      case absent_value =>
        dsimp only at h
        injection h with h1 h2
        injection h2 with hv hr
        have hdp := jparse_absent_depth_pos fuel p p 1 ctx (depth - 1) vk restk hk
        rw [← hv]
        rw [show jdepth (JsonVal.obj acc) = 1 + jdepthMembers acc from rfl]
        omega
      case success =>
        dsimp only at h
        cases vk
        case str kb =>
          dsimp only at h
          rcases hv2 : jparse fuel restk restk 1 COLON (depth - 1) with ⟨stv, vv, restv⟩
          rw [hv2] at h
          cases stv
          case absent_value =>
            dsimp only at h
            injection h with h1 h2
            exact Status.noConfusion h1
          case success =>
            dsimp only at h
            have hvv := ihA _ _ _ _ _ _ _ hv2
            refine ihD _ _ _ _ _ _ h ?_
            have hme := jdepthMembers_emplace acc kb vv
            omega
          all_goals
            dsimp only at h
            injection h with h1 h2
            exact Status.noConfusion h1
        all_goals
          dsimp only at h
          injection h with h1 h2
          exact Status.noConfusion h1
      all_goals
        dsimp only at h
        injection h with h1 h2
        exact Status.noConfusion h1

/-- C4: the recursive descent starts at a remaining-depth budget of
`DEPTH = 20` (json.cpp:43, 1266) and any call with budget 0 reports
`depth_exceeded` immediately (json.cpp:814); consequently every
successfully parsed value has container nesting depth at most 20 (the
proof bounds it by `DEPTH - 1`), and a 21-level nested array is rejected
with `depth_exceeded`. -/
theorem claim_C4 :
    DEPTH = 20 ∧
    (∀ fuel p a d ctx,
      jparse (fuel + 1) p a d ctx 0 = (Status.depth_exceeded, JsonVal.null, p)) ∧
    (∀ s v, parseBytes s = (Status.success, v) → jdepth v ≤ 20) ∧
    (parseBytes (nestedArrayBytes 21)).1 = Status.depth_exceeded := by
  refine ⟨rfl, fun fuel p a d ctx => rfl, ?_, rfl⟩
  intro s v h
  unfold parseBytes at h
  rcases h1 : jparse (bigFuel s) s s 1 0 DEPTH with ⟨st1, v1, r1⟩
  rw [h1] at h
  cases st1
  case success =>
    dsimp only at h
    rcases h2 : jparse (bigFuel r1) r1 r1 1 0 DEPTH with ⟨st2, v2, r2⟩
    rw [h2] at h
    dsimp only at h
    have hb : jdepth v1 ≤ 19 := (jparse_depth (bigFuel s)).1 _ _ _ _ _ _ _ h1
    split at h
    · injection h with hA hB
      exact Status.noConfusion hA
    · injection h with hA hB
      rw [← hB]
      omega
  all_goals
    dsimp only at h
    injection h with hA hB
    exact Status.noConfusion hA

theorem claim_C4_witness :
    DEPTH = 20 ∧
    jparse 7 [93] [93] 1 0 0 = (Status.depth_exceeded, JsonVal.null, [93]) ∧
    jdepth (JsonVal.arr []) ≤ 20 :=
  ⟨claim_C4.1, claim_C4.2.1 6 [93] [93] 1 0,
   claim_C4.2.2.1 [91, 93] (JsonVal.arr []) rfl⟩

theorem applyStepP_nodes (fuel : Nat) (s d : JsonVal) (step : JsonPathStep)
    (hu : step.kind = JsonPathStepKind.Union →
      ∀ e ∈ step.unionEntries, e.kind ≠ JsonPathUnionKind.Slice) :
    ∀ item : JsonPathNodeWithParent,
      (applyStepP fuel s d step item).map (fun i => i.node) =
        applyStepAt fuel s d step item.node := by
  intro item
  cases fuel with
  | zero => rfl
  | succ fuel =>
    rw [applyStepP.eq_def, applyStepAt.eq_def]
    dsimp only
    rcases step with ⟨kind, recv, name, indices, slice, entries, filter⟩
    dsimp only [JsonPathStep.kind, JsonPathStep.name, JsonPathStep.indices,
      JsonPathStep.slice, JsonPathStep.unionEntries, JsonPathStep.filter] at hu ⊢
    cases kind
    case Name =>
      dsimp only
      cases nodeAt s item.node <;> try rfl
      case obj m => dsimp only; cases mapFind m name <;> rfl
    case Wildcard =>
      dsimp only
      cases nodeAt s item.node <;> try rfl
      case arr l => dsimp only; rw [List.map_map]; rfl
      case obj m => dsimp only; rw [List.map_map]; rfl
    case Indices =>
      dsimp only
      cases nodeAt s item.node <;> try rfl
      case arr l =>
        dsimp only
        rw [List.map_filterMap]
        simp only [Option.map_map]
        rfl
    case Slice =>
      dsimp only
      cases nodeAt s item.node <;> try rfl
      case arr l => dsimp only; rw [List.map_map]; rfl
    case Union =>
      dsimp only
      have hu2 := hu rfl
      clear hu
      revert hu2
      induction entries with
      | nil => intro _; rfl
      | cons e es ihe =>
        intro hu2
        rw [List.flatMap_cons, List.flatMap_cons, List.map_append,
          ihe (fun x hx => hu2 x (List.mem_cons_of_mem _ hx))]
        congr 1
        have he := hu2 e (List.mem_cons_self _ _)
        rcases e with ⟨ekind, ename, eindex, eslice⟩
        cases ekind
        case Slice => exact absurd rfl he
        case Name =>
          dsimp only [applyUnionEntry]
          cases nodeAt s item.node <;> try rfl
          case obj m => dsimp only; cases mapFind m ename <;> rfl
        case Index =>
          dsimp only [applyUnionEntry]
          cases nodeAt s item.node <;> try rfl
          case arr l => dsimp only; cases normalizeIndex eindex l.length <;> rfl
        case Wildcard =>
          dsimp only [applyUnionEntry]
          cases nodeAt s item.node <;> try rfl
          case arr l => dsimp only; rw [List.map_map]; rfl
          case obj m => dsimp only; rw [List.map_map]; rfl
    case Filter =>
      dsimp only
      cases filter with
      | none => rfl
      | some f =>
        dsimp only
        cases nodeAt s item.node <;> try rfl
        case arr l =>
          dsimp only
          rw [List.map_filterMap]
          congr 1
          funext i
          split <;> rfl
        case obj m =>
          dsimp only
          rw [List.map_filterMap]
          congr 1
          funext kv
          split <;> rfl

theorem evalStepsP_nodes : ∀ fuel (s d : JsonVal) (steps : List JsonPathStep)
    (items : List JsonPathNodeWithParent),
    (∀ step ∈ steps, step.recursive = false ∧
      (step.kind = JsonPathStepKind.Union →
        ∀ e ∈ step.unionEntries, e.kind ≠ JsonPathUnionKind.Slice)) →
    (evalStepsP fuel s d steps items).map (fun i => i.node) =
      evalSteps fuel s d steps (items.map (fun i => i.node)) := by
  intro fuel
  induction fuel with
  | zero => intro s d steps items _; rfl
  | succ fuel ih =>
    intro s d steps items hsteps
    rw [evalStepsP.eq_def, evalSteps.eq_def]
    dsimp only
    cases steps with
    | nil => rfl
    | cons step rest =>
      dsimp only
      obtain ⟨hrec, hun⟩ := hsteps step (List.mem_cons_self _ _)
      rw [if_neg (by rw [hrec]; exact Bool.false_ne_true),
        if_neg (by rw [hrec]; exact Bool.false_ne_true)]
      rw [ih s d rest _ (fun st hm => hsteps st (List.mem_cons_of_mem _ hm))]
      congr 1
      rw [List.map_flatMap, List.flatMap_map]
      exact List.flatMap_congr (fun i _ => applyStepP_nodes fuel s d step hun i)

theorem except_bind_ok {α β : Type} (a : α) (f : α → Except String β) :
    (Except.ok a >>= f) = f a := rfl

/-- C3 (amended): for a compiled path whose steps are all non-recursive
and whose union steps carry no slice entries, the nodes matched by the
parent-tracking evaluation of `deleteJsonpath` (json.cpp:3215) are
exactly the nodes matched by the ordinary evaluation of `jsonpath`
(json.cpp:2967) — in the same order, with the matched node locations
equal item for item.  (The exclusions are necessary: recursive descent
uses `collectDescendantsWithParent`, which skips each base node, and the
parent-tracking union discards `Slice` entries, json.cpp:3425; see the
counterexample.) -/
theorem claim_C3_amended :
    ∀ (doc : JsonVal) (expr : List Byte) (compiled : CompiledPath),
    jpParseFull (pathFuel expr) expr = .ok compiled →
    (∀ step ∈ compiled.steps, step.recursive = false ∧
      (step.kind = JsonPathStepKind.Union →
        ∀ e ∈ step.unionEntries, e.kind ≠ JsonPathUnionKind.Slice)) →
    (deleteJsonpathMatches doc expr).map (fun l => l.map (fun i => i.node)) =
      jsonpathLocs doc expr := by
  intro doc expr compiled hc hsteps
  unfold deleteJsonpathMatches jsonpathLocs
  rw [hc]
  rw [except_bind_ok, except_bind_ok]
  rcases compiled with ⟨rel, steps⟩
  dsimp only [CompiledPath.relative, CompiledPath.steps] at hsteps ⊢
  cases rel
  case true => rfl
  case false =>
    rw [if_neg Bool.false_ne_true, if_neg Bool.false_ne_true]
    dsimp only [Except.map, evaluatePathWithParent, evaluatePath]
    rw [evalStepsP_nodes _ _ _ _ _ hsteps]
    rfl

theorem claim_C3_amended_witness :
    (deleteJsonpathMatches (JsonVal.obj [([97], JsonVal.long 1)])
        [36, 46, 97]).map (fun l => l.map (fun i => i.node)) =
      jsonpathLocs (JsonVal.obj [([97], JsonVal.long 1)]) [36, 46, 97] :=
  claim_C3_amended (JsonVal.obj [([97], JsonVal.long 1)]) [36, 46, 97]
    (CompiledPath.mk false [JsonPathStep.mk .Name false [97] [] {} [] none]) rfl
    (by
      intro step hm
      dsimp only [CompiledPath.steps] at hm
      rw [List.mem_singleton] at hm
      subst hm
      exact ⟨rfl, fun hk => absurd hk (by decide)⟩)

/-- C3 counterexample: on the document `[10,20,30]` with the expression
`$[0:1,2]` (a union of a slice and an index), `jsonpath` matches the
nodes at `[0]` and `[2]`, but the parent-tracking evaluation used by
`delete_jsonpath` drops the slice entry of the union (json.cpp:3425) and
matches only `[2]` — the node at index 0, which is not the document
root, is matched by the query evaluator but not deleted.  Likewise, on
the document `{"a":{"a":1}}` the recursive expression `$..a` matches
`.a` and `.a.a` for `jsonpath` but only `.a.a` for the parent-tracking
evaluation (`collectDescendantsWithParent` skips each base node,
json.cpp:3173). -/
theorem claim_C3_counterexample :
    (jsonpathLocs (JsonVal.arr [.long 10, .long 20, .long 30])
        [36, 91, 48, 58, 49, 44, 50, 93] = .ok [[Seg.idx 0], [Seg.idx 2]] ∧
      (deleteJsonpathMatches (JsonVal.arr [.long 10, .long 20, .long 30])
          [36, 91, 48, 58, 49, 44, 50, 93]).map (fun l => l.map (fun i => i.node)) =
        .ok [[Seg.idx 2]] ∧
      ([Seg.idx 0] : Loc) ∈ [[Seg.idx 0], [Seg.idx 2]] ∧
      ¬ (([Seg.idx 0] : Loc) ∈ ([[Seg.idx 2]] : List Loc)) ∧
      ([Seg.idx 0] : Loc) ≠ []) ∧
    (jsonpathLocs (JsonVal.obj [([97], JsonVal.obj [([97], JsonVal.long 1)])])
        [36, 46, 46, 97] = .ok [[Seg.key [97]], [Seg.key [97], Seg.key [97]]] ∧
      (deleteJsonpathMatches (JsonVal.obj [([97], JsonVal.obj [([97], JsonVal.long 1)])])
          [36, 46, 46, 97]).map (fun l => l.map (fun i => i.node)) =
        .ok [[Seg.key [97], Seg.key [97]]] ∧
      ([Seg.key [97]] : Loc) ∈ [[Seg.key [97]], [Seg.key [97], Seg.key [97]]] ∧
      ¬ (([Seg.key [97]] : Loc) ∈ ([[Seg.key [97], Seg.key [97]]] : List Loc)) ∧
      ([Seg.key [97]] : Loc) ≠ []) :=
  ⟨⟨rfl, rfl, by decide⟩, ⟨rfl, rfl, by decide⟩⟩

end JsonCpp
